import Mathlib

/-!
Verification of the note timing and judgment engine of the lane-based
rhythm game in `src/main.py`.

The embedding is shallow: each Python class becomes a Lean structure and
each method a pure function.  Positions and lengths are rationals (the
Python code uses exact decimal arithmetic on small values; `ℚ` models it
without floating-point concerns for the values that occur).  The two note
classes `Note` and `LongNote` are flattened into a single structure with a
`type` tag (`LongNote` only adds fields; the Python code dispatches on
`note.type` everywhere).  Python removes notes from `self.notes` by object
identity while iterating over a copy `self.notes[:]`; we model object
identity with an `id` field and each loop as a structural recursion over
the list that either keeps (possibly mutated) or drops each element in
order, which is exactly what the Python loops do.  Calls to
`score_manager.add_score` / `judgment_display.show_judgment` performed
inside the loops are recorded as a list of `EngineAction`s, replayed in order by
`apply_actions`; this keeps the loops pure while preserving the exact
sequence of side effects.
-/

/-- JudgmentType enum from `src/main.py`. -/
inductive JudgmentType where
  | PERFECT
  | GREAT
  | GOOD
  | BAD
  | MISS
deriving DecidableEq, Repr

/-- NoteType enum from `src/main.py`. -/
inductive NoteType where
  | NORMAL
  | LONG
deriving DecidableEq, Repr

/-- The `score_values` table inside `ScoreManager.add_score`. -/
def score_values : JudgmentType → Nat
  | .PERFECT => 300
  | .GREAT => 200
  | .GOOD => 100
  | .BAD => 50
  | .MISS => 0

/-- `ScoreManager` state: `score`, `combo`, `max_combo`. -/
structure ScoreManager where
  score : Nat
  combo : Nat
  max_combo : Nat
deriving DecidableEq, Repr

/-- `ScoreManager.__init__` / `ScoreManager.reset`. -/
def ScoreManager.init : ScoreManager := ⟨0, 0, 0⟩

/-- `ScoreManager.add_score`: adds the tier's point value, then either
increments the combo (updating the high-water mark) or resets it. -/
def ScoreManager.add_score (s : ScoreManager) (j : JudgmentType) : ScoreManager :=
  if j ≠ JudgmentType.MISS ∧ j ≠ JudgmentType.BAD then
    { score := s.score + score_values j
      combo := s.combo + 1
      max_combo := max s.max_combo (s.combo + 1) }
  else
    { score := s.score + score_values j
      combo := 0
      max_combo := s.max_combo }

/-- Folding `add_score` over a sequence of judgment tiers (a sequence of
`add_score` calls on the same manager). -/
def run_scores (s : ScoreManager) : List JudgmentType → ScoreManager
  | [] => s
  | j :: js => run_scores (s.add_score j) js

/-- The list of values the `combo` field holds along a sequence of
`add_score` calls, the initial value included. -/
def comboTrace (s : ScoreManager) : List JudgmentType → List Nat
  | [] => [s.combo]
  | j :: js => s.combo :: comboTrace (s.add_score j) js

/-- A `Note` object, the two Python classes flattened: `length` and
`holding` belong to the `LongNote` subclass and are inert (defaulted)
for `NORMAL` notes; `id` models Python object identity. -/
structure Note where
  id : Nat
  lane : Nat
  y : ℚ
  hit : Bool := false
  type : NoteType := .NORMAL
  off_screen_time : Nat := 0
  length : ℚ := 0
  holding : Bool := false
deriving DecidableEq, Repr

/-- `Note.update` / `LongNote.update`: a normal note, or a long note not
being held, moves down by `speed`; a held long note instead shrinks
(`max(0, length - speed)`), its head staying fixed. -/
def Note.update (n : Note) (speed : ℚ) : Note :=
  match n.type with
  | .NORMAL => { n with y := n.y + speed }
  | .LONG =>
      if n.holding then { n with length := max 0 (n.length - speed * 1) }
      else { n with y := n.y + speed }

/-- `Note.get_distance_from_judgment_line`. -/
def Note.get_distance_from_judgment_line (n : Note) (line : ℚ) : ℚ := |n.y - line|

/-- `Note.is_in_hit_range` with the default `hit_range = 60`. -/
def Note.is_in_hit_range (n : Note) (line : ℚ) : Bool := decide (|n.y - line| < 60)

/-- `Note.is_off_screen`. -/
def Note.is_off_screen (n : Note) (screen_height : ℚ) : Bool := decide (n.y > screen_height + 50)

/-- `LongNote.get_head_y` (the head coincides with `y`). -/
def Note.get_head_y (n : Note) : ℚ := n.y

/-- `LongNote.get_tail_y`: the tail sits `length` above the head. -/
def Note.get_tail_y (n : Note) : ℚ := n.y - n.length

/-- `RhythmGame.calculate_judgment`: the distance-to-tier classifier. -/
def calculate_judgment (distance : ℚ) : JudgmentType :=
  if distance < 15 then JudgmentType.PERFECT
  else if distance < 30 then JudgmentType.GREAT
  else if distance < 45 then JudgmentType.GOOD
  else JudgmentType.BAD

lemma add_score_score (s : ScoreManager) (j : JudgmentType) :
    (s.add_score j).score = s.score + score_values j := by
  unfold ScoreManager.add_score
  split <;> rfl

lemma add_score_combo (s : ScoreManager) (j : JudgmentType) :
    (s.add_score j).combo =
      if j = JudgmentType.BAD ∨ j = JudgmentType.MISS then 0 else s.combo + 1 := by
  cases j <;> rfl

lemma add_score_max_combo (s : ScoreManager) (j : JudgmentType) :
    (s.add_score j).max_combo = max s.max_combo (s.add_score j).combo := by
  cases j <;> simp [ScoreManager.add_score]

lemma add_score_combo_le (s : ScoreManager) (j : JudgmentType) :
    (s.add_score j).combo ≤ (s.add_score j).max_combo := by
  cases j <;> simp [ScoreManager.add_score]

lemma add_score_max_mono (s : ScoreManager) (j : JudgmentType) :
    s.max_combo ≤ (s.add_score j).max_combo := by
  cases j <;> simp [ScoreManager.add_score]

lemma run_scores_max_mono (l : List JudgmentType) : ∀ s : ScoreManager,
    s.max_combo ≤ (run_scores s l).max_combo := by
  induction l with
  | nil => intro s; exact le_refl _
  | cons j js ih =>
      intro s
      exact le_trans (add_score_max_mono s j) (ih (s.add_score j))

lemma run_scores_max_eq (l : List JudgmentType) : ∀ s : ScoreManager,
    s.combo ≤ s.max_combo →
    (run_scores s l).max_combo = max s.max_combo ((comboTrace s l).foldr max 0) := by
  induction l with
  | nil =>
      intro s h
      simp only [run_scores, comboTrace, List.foldr]
      omega
  | cons j js ih =>
      intro s h
      have hstep := ih (s.add_score j) (add_score_combo_le s j)
      simp only [run_scores, comboTrace, List.foldr] at *
      rw [hstep, add_score_max_combo s j]
      have hhead : (s.add_score j).combo ≤ (comboTrace (s.add_score j) js).foldr max 0 := by
        cases js with
        | nil => simp [comboTrace]
        | cons a as => simp [comboTrace]
      have hcombo : s.combo ≤ s.max_combo := h
      omega

/-- C1: `calculate_judgment` is a total deterministic function of the
distance with half-open boundaries: `d < 15 → Perfect`,
`15 ≤ d < 30 → Great`, `30 ≤ d < 45 → Good`, `45 ≤ d → Bad`; in
particular it maps 15 to Great, 30 to Good and 45 to Bad.  (Totality and
determinism hold because it is a Lean function on `ℚ`.) -/
theorem claim_C1_classify_boundaries : ∀ d : ℚ,
    (d < 15 → calculate_judgment d = JudgmentType.PERFECT) ∧
    (15 ≤ d → d < 30 → calculate_judgment d = JudgmentType.GREAT) ∧
    (30 ≤ d → d < 45 → calculate_judgment d = JudgmentType.GOOD) ∧
    (45 ≤ d → calculate_judgment d = JudgmentType.BAD) ∧
    calculate_judgment 15 = JudgmentType.GREAT ∧
    calculate_judgment 30 = JudgmentType.GOOD ∧
    calculate_judgment 45 = JudgmentType.BAD := by
  intro d
  refine ⟨?_, ?_, ?_, ?_, by norm_num [calculate_judgment], by norm_num [calculate_judgment],
    by norm_num [calculate_judgment]⟩
  · intro h; simp [calculate_judgment, h]
  · intro h1 h2
    simp [calculate_judgment, h2, not_lt.mpr h1]
  · intro h1 h2
    have : ¬ d < 15 := by linarith
    have h30 : ¬ d < 30 := by linarith
    simp [calculate_judgment, this, h30, h2]
  · intro h1
    have h15 : ¬ d < 15 := by linarith
    have h30 : ¬ d < 30 := by linarith
    have h45 : ¬ d < 45 := by linarith
    simp [calculate_judgment, h15, h30, h45]

/-- Witness for C1 at concrete distances in each band. -/
theorem claim_C1_classify_boundaries_witness :
    calculate_judgment 10 = JudgmentType.PERFECT ∧
    calculate_judgment 20 = JudgmentType.GREAT ∧
    calculate_judgment 40 = JudgmentType.GOOD ∧
    calculate_judgment 50 = JudgmentType.BAD :=
  ⟨(claim_C1_classify_boundaries 10).1 (by norm_num),
   (claim_C1_classify_boundaries 20).2.1 (by norm_num) (by norm_num),
   (claim_C1_classify_boundaries 40).2.2.1 (by norm_num) (by norm_num),
   (claim_C1_classify_boundaries 50).2.2.2.1 (by norm_num)⟩

/-- C2: `add_score` adds the tier's fixed point value to `score` (so the
score never decreases); `combo` becomes 0 exactly for Bad or Miss and is
incremented by exactly 1 otherwise; `max_combo` is non-decreasing across
any sequence of calls and, starting from the initial manager, equals the
maximum value `combo` has ever held. -/
theorem claim_C2_score_ledger : ∀ (s : ScoreManager) (j : JudgmentType) (l : List JudgmentType),
    ((s.add_score j).score = s.score + score_values j ∧ s.score ≤ (s.add_score j).score) ∧
    ((s.add_score j).combo =
      if j = JudgmentType.BAD ∨ j = JudgmentType.MISS then 0 else s.combo + 1) ∧
    (s.max_combo ≤ (run_scores s l).max_combo) ∧
    ((run_scores ScoreManager.init l).max_combo =
      (comboTrace ScoreManager.init l).foldr max 0) := by
  intro s j l
  refine ⟨⟨add_score_score s j, ?_⟩, add_score_combo s j, run_scores_max_mono l s, ?_⟩
  · rw [add_score_score]; omega
  · have h := run_scores_max_eq l ScoreManager.init (by simp [ScoreManager.init])
    have h0 : (comboTrace ScoreManager.init l).foldr max 0 ≥ 0 := Nat.zero_le _
    rw [h]
    simp [ScoreManager.init]

/-- C9: `update` moves a normal note (or an unheld long note) down by
exactly `speed`, leaving the length alone; for a held long note it instead
shrinks the length by `speed` floored at zero (so the remaining length is
never negative) and leaves the head position unchanged. -/
theorem claim_C9_note_advance : ∀ (n : Note) (speed : ℚ),
    ((n.type = NoteType.NORMAL ∨ n.holding = false) →
      (n.update speed).y = n.y + speed ∧
      (n.update speed).length = n.length ∧
      (n.update speed).holding = n.holding ∧
      (n.update speed).hit = n.hit) ∧
    (n.type = NoteType.LONG → n.holding = true →
      (n.update speed).y = n.y ∧
      (n.update speed).length = max 0 (n.length - speed) ∧
      0 ≤ (n.update speed).length ∧
      (n.update speed).hit = n.hit) := by
  intro n speed
  constructor
  · intro h
    cases htype : n.type with
    | NORMAL => simp [Note.update, htype]
    | LONG =>
        rcases h with h | h
        · rw [htype] at h; exact absurd h (by simp)
        · simp [Note.update, htype, h]
  · intro htype hhold
    simp [Note.update, htype, hhold, mul_one]

/-- Concrete falling normal note used in witnesses. -/
def wNormal : Note := { id := 0, lane := 0, y := 100 }

/-- Concrete held long note used in witnesses. -/
def wHeld : Note :=
  { id := 1, lane := 0, y := 500, hit := true, type := .LONG, length := 3, holding := true }

/-- Witness for C9: a moving normal note and a held long note. -/
theorem claim_C9_note_advance_witness :
    ((wNormal.update 5).y = wNormal.y + 5 ∧
      (wNormal.update 5).length = wNormal.length ∧
      (wNormal.update 5).holding = wNormal.holding ∧
      (wNormal.update 5).hit = wNormal.hit) ∧
    ((wHeld.update 5).y = wHeld.y ∧
      (wHeld.update 5).length = max 0 (wHeld.length - 5) ∧
      0 ≤ (wHeld.update 5).length ∧
      (wHeld.update 5).hit = wHeld.hit) :=
  ⟨(claim_C9_note_advance wNormal 5).1 (Or.inl rfl),
   (claim_C9_note_advance wHeld 5).2 rfl rfl⟩

/-- One side effect performed while a loop scans the note list:
`resolve` is an `add_score` plus `show_judgment` at the point a note is
removed; `holdStart` is the `show_judgment` emitted when a long note's
head is judged (no score, note kept); `cleanup` is a removal with no
scoring (an already judged note past the screen). -/
inductive EngineAction where
  | resolve (noteId : Nat) (j : JudgmentType)
  | holdStart (noteId : Nat) (j : JudgmentType)
  | cleanup (noteId : Nat)
deriving DecidableEq, Repr

/-- `RhythmGame.check_note_hit`: scan the notes in order; the first
unjudged note of the pressed lane whose (head) position is within 60 of
the judgment line is resolved (normal: scored and removed; long: marked
hit and holding) and the scan stops; every other note is kept as is. -/
def check_hit (line : ℚ) (lane : Nat) : List Note → List Note × List EngineAction
  | [] => ([], [])
  | n :: rest =>
    if n.lane = lane ∧ n.hit = false then
      match n.type with
      | .NORMAL =>
        if |n.y - line| < 60 then
          (rest, [EngineAction.resolve n.id (calculate_judgment (n.get_distance_from_judgment_line line))])
        else
          let r := check_hit line lane rest
          (n :: r.1, r.2)
      | .LONG =>
        if |n.get_head_y - line| < 60 then
          ({ n with hit := true, holding := true } :: rest,
            [EngineAction.holdStart n.id (calculate_judgment |n.get_head_y - line|)])
        else
          let r := check_hit line lane rest
          (n :: r.1, r.2)
    else
      let r := check_hit line lane rest
      (n :: r.1, r.2)

/-- `RhythmGame.release_long_notes`: every holding long note of the
released lane is scored by where its tail is (past `line + 30`: Great,
otherwise Miss) and removed; the scan does not stop at the first match. -/
def release_pass (line : ℚ) (lane : Nat) : List Note → List Note × List EngineAction
  | [] => ([], [])
  | n :: rest =>
    let r := release_pass line lane rest
    if n.lane = lane ∧ n.type = NoteType.LONG ∧ n.holding = true then
      (r.1,
        EngineAction.resolve n.id
          (if n.get_tail_y ≥ line + 30 then JudgmentType.GREAT else JudgmentType.MISS) :: r.2)
    else
      (n :: r.1, r.2)

/-- The long-note completion / early-release loop of `RhythmGame.update`:
for each holding long note, a length that has reached 0 resolves the hold
(Great when the lane's key is still held, Miss otherwise), and otherwise a
released key mid-hold resolves it as Miss; either way the note is
removed. -/
def long_check_pass (keys_held : Nat → Bool) : List Note → List Note × List EngineAction
  | [] => ([], [])
  | n :: rest =>
    let r := long_check_pass keys_held rest
    if n.type = NoteType.LONG ∧ n.holding = true then
      if n.length ≤ 0 then
        (r.1,
          EngineAction.resolve n.id
            (if keys_held n.lane then JudgmentType.GREAT else JudgmentType.MISS) :: r.2)
      else if keys_held n.lane = false then
        (r.1, EngineAction.resolve n.id JudgmentType.MISS :: r.2)
      else
        (n :: r.1, r.2)
    else
      (n :: r.1, r.2)

/-- `SCREEN_HEIGHT` from the game settings. -/
def SCREEN_HEIGHT : ℚ := 600

/-- The off-screen loop of `RhythmGame.update`: an unjudged note whose
relevant edge (position for normal, tail for long) is past
`SCREEN_HEIGHT + 50` accumulates `off_screen_time`; at 180 it is resolved
as Miss and removed.  A judged note past the screen is removed at once
with no scoring. -/
def off_screen_pass : List Note → List Note × List EngineAction
  | [] => ([], [])
  | n :: rest =>
    let r := off_screen_pass rest
    match n.type with
    | .NORMAL =>
      if n.is_off_screen SCREEN_HEIGHT then
        if n.hit = false then
          if n.off_screen_time + 1 ≥ 180 then
            (r.1, EngineAction.resolve n.id JudgmentType.MISS :: r.2)
          else
            ({ n with off_screen_time := n.off_screen_time + 1 } :: r.1, r.2)
        else
          (r.1, EngineAction.cleanup n.id :: r.2)
      else
        (n :: r.1, r.2)
    | .LONG =>
      if n.get_tail_y > SCREEN_HEIGHT + 50 then
        if n.hit = false then
          if n.off_screen_time + 1 ≥ 180 then
            (r.1, EngineAction.resolve n.id JudgmentType.MISS :: r.2)
          else
            ({ n with off_screen_time := n.off_screen_time + 1 } :: r.1, r.2)
        else
          (r.1, EngineAction.cleanup n.id :: r.2)
      else
        (n :: r.1, r.2)

/-- `JudgmentDisplay` state: the tier being shown and the frame timer. -/
structure JudgmentDisplay where
  tier : Option JudgmentType
  timer : Nat
deriving DecidableEq, Repr

/-- `JudgmentDisplay.__init__`. -/
def JudgmentDisplay.init : JudgmentDisplay := ⟨none, 0⟩

/-- `JudgmentDisplay.show_judgment`: record the tier, timer to 30. -/
def JudgmentDisplay.show_judgment (j : JudgmentType) : JudgmentDisplay := ⟨some j, 30⟩

/-- `JudgmentDisplay.update`: count the timer down. -/
def JudgmentDisplay.update (d : JudgmentDisplay) : JudgmentDisplay :=
  if d.timer > 0 then { d with timer := d.timer - 1 } else d

/-- The engine state of `RhythmGame` during play: the active note list,
the per-lane key state, the score manager and the feedback display
(`note_speed` and `judgment_line_y` are the fields set in `__init__`). -/
structure RhythmGame where
  notes : List Note
  keys_held : Nat → Bool
  score_manager : ScoreManager
  display : JudgmentDisplay
  note_speed : ℚ
  judgment_line_y : ℚ

/-- Replay one recorded side effect on the score manager / display. -/
def apply_action (g : RhythmGame) : EngineAction → RhythmGame
  | .resolve _ j =>
      { g with score_manager := g.score_manager.add_score j
               display := JudgmentDisplay.show_judgment j }
  | .holdStart _ j => { g with display := JudgmentDisplay.show_judgment j }
  | .cleanup _ => g

/-- Replay the recorded side effects in order. -/
def apply_actions (g : RhythmGame) (acts : List EngineAction) : RhythmGame :=
  acts.foldl apply_action g

/-- `handle_key_down` for a mapped lane: set the key held, then
`check_note_hit`; also returns the recorded actions. -/
def pressA (g : RhythmGame) (lane : Nat) : RhythmGame × List EngineAction :=
  let g1 := { g with keys_held := fun k => if k = lane then true else g.keys_held k }
  let r := check_hit g1.judgment_line_y lane g1.notes
  (apply_actions { g1 with notes := r.1 } r.2, r.2)

/-- `handle_key_down` for a mapped lane (state part). -/
def on_lane_press (g : RhythmGame) (lane : Nat) : RhythmGame := (pressA g lane).1

/-- `handle_key_up` for a mapped lane: clear the key, then
`release_long_notes`; also returns the recorded actions. -/
def releaseA (g : RhythmGame) (lane : Nat) : RhythmGame × List EngineAction :=
  let g1 := { g with keys_held := fun k => if k = lane then false else g.keys_held k }
  let r := release_pass g1.judgment_line_y lane g1.notes
  (apply_actions { g1 with notes := r.1 } r.2, r.2)

/-- `handle_key_up` for a mapped lane (state part). -/
def on_lane_release (g : RhythmGame) (lane : Nat) : RhythmGame := (releaseA g lane).1

/-- `RhythmGame.update` in the PLAYING state: move every note, run the
long-note completion / early-release loop, run the off-screen loop, then
count the display timer down; also returns the recorded actions. -/
def tickA (g : RhythmGame) : RhythmGame × List EngineAction :=
  let moved := g.notes.map (fun n => n.update g.note_speed)
  let r1 := long_check_pass g.keys_held moved
  let r2 := off_screen_pass r1.1
  let acts := r1.2 ++ r2.2
  let g1 := apply_actions { g with notes := r2.1 } acts
  ({ g1 with display := g1.display.update }, acts)

/-- `RhythmGame.update` in the PLAYING state (state part). -/
def tick (g : RhythmGame) : RhythmGame := (tickA g).1

/-- The events that drive the engine: a lane press, a lane release, or a
per-frame tick. -/
inductive Ev where
  | press (lane : Nat)
  | release (lane : Nat)
  | tick
deriving DecidableEq, Repr

/-- One engine step with its recorded actions. -/
def stepA (g : RhythmGame) : Ev → RhythmGame × List EngineAction
  | .press lane => pressA g lane
  | .release lane => releaseA g lane
  | .tick => tickA g

/-- One engine step (state part). -/
def step (g : RhythmGame) (e : Ev) : RhythmGame := (stepA g e).1

/-- Run the engine over a sequence of events. -/
def runGame (g : RhythmGame) : List Ev → RhythmGame
  | [] => g
  | e :: es => runGame (step g e) es

/-- All actions recorded along a sequence of events. -/
def traceActions (g : RhythmGame) : List Ev → List EngineAction
  | [] => []
  | e :: es => (stepA g e).2 ++ traceActions (step g e) es

/-- The object identities of a note list. -/
def idsOf (ns : List Note) : List Nat := ns.map Note.id

/-- The identity removed by an action, when it removes a note. -/
def EngineAction.removalId : EngineAction → Option Nat
  | .resolve i _ => some i
  | .cleanup i => some i
  | .holdStart _ _ => none

/-- The identity scored by an action, when it calls `add_score`. -/
def EngineAction.scoreId : EngineAction → Option Nat
  | .resolve i _ => some i
  | .holdStart _ _ => none
  | .cleanup _ => none

/-- The identity of a hold-start action. -/
def EngineAction.holdStartId : EngineAction → Option Nat
  | .holdStart i _ => some i
  | .resolve _ _ => none
  | .cleanup _ => none

/-- The identities of the notes an action list removes. -/
def removalIds (acts : List EngineAction) : List Nat := acts.filterMap EngineAction.removalId

/-- The identities of the notes an action list scores. -/
def scoreIds (acts : List EngineAction) : List Nat := acts.filterMap EngineAction.scoreId

/-- The identities of the notes an action list hold-starts. -/
def holdStartIds (acts : List EngineAction) : List Nat := acts.filterMap EngineAction.holdStartId

/-- The notes `release_long_notes(lane)` acts on: holding long notes of
the released lane. -/
def release_match (lane : Nat) (n : Note) : Bool :=
  decide (n.lane = lane) && decide (n.type = NoteType.LONG) && n.holding

/-- The tier `release_long_notes` awards, from the note's own tail. -/
def release_verdict (line : ℚ) (n : Note) : JudgmentType :=
  if n.get_tail_y ≥ line + 30 then JudgmentType.GREAT else JudgmentType.MISS

lemma release_pass_eq (line : ℚ) (lane : Nat) : ∀ ns : List Note,
    release_pass line lane ns =
      (ns.filter (fun n => !(release_match lane n)),
       (ns.filter (release_match lane)).map
         (fun n => EngineAction.resolve n.id (release_verdict line n))) := by
  intro ns
  induction ns with
  | nil => rfl
  | cons n rest ih =>
      by_cases h : n.lane = lane ∧ n.type = NoteType.LONG ∧ n.holding = true
      · have hb : release_match lane n = true := by
          simp [release_match, h.1, h.2.1, h.2.2]
        simp [release_pass, h, ih, hb, release_verdict, List.filter_cons]
      · have hb : release_match lane n = false := by
          simp only [release_match, Bool.and_eq_true, decide_eq_true_eq, Bool.and_eq_false_iff]
          by_cases h1 : n.lane = lane
          · by_cases h2 : n.type = NoteType.LONG
            · have h3 : n.holding = false := by
                cases hh : n.holding
                · rfl
                · exact absurd ⟨h1, h2, hh⟩ h
              simp [h1, h2, h3]
            · simp [h2]
          · simp [h1]
        simp [release_pass, h, ih, hb, List.filter_cons]

/-- The notes the long-note loop of `update` resolves this frame:
holding long notes that are finished or whose key is up. -/
def long_resolved (keys_held : Nat → Bool) (n : Note) : Bool :=
  decide (n.type = NoteType.LONG) && n.holding &&
    (decide (n.length ≤ 0) || !keys_held n.lane)

/-- The tier the long-note loop of `update` awards: completion is
checked first (Great when the key is still down, Miss otherwise), and
only an unfinished hold falls through to the early-release Miss. -/
def long_verdict (keys_held : Nat → Bool) (n : Note) : JudgmentType :=
  if n.length ≤ 0 then
    (if keys_held n.lane then JudgmentType.GREAT else JudgmentType.MISS)
  else JudgmentType.MISS

lemma long_check_pass_eq (keys_held : Nat → Bool) : ∀ ns : List Note,
    long_check_pass keys_held ns =
      (ns.filter (fun n => !(long_resolved keys_held n)),
       (ns.filter (long_resolved keys_held)).map
         (fun n => EngineAction.resolve n.id (long_verdict keys_held n))) := by
  intro ns
  induction ns with
  | nil => rfl
  | cons n rest ih =>
      by_cases h : n.type = NoteType.LONG ∧ n.holding = true
      · by_cases h0 : n.length ≤ 0
        · have hb : long_resolved keys_held n = true := by
            simp [long_resolved, h.1, h.2, h0]
          simp [long_check_pass, h, h0, ih, hb, long_verdict, List.filter_cons]
        · by_cases hk : keys_held n.lane = false
          · have hb : long_resolved keys_held n = true := by
              simp [long_resolved, h.1, h.2, hk]
            simp [long_check_pass, h, h0, hk, ih, hb, long_verdict, List.filter_cons]
          · have hk2 : keys_held n.lane = true := by
              cases hkk : keys_held n.lane
              · exact absurd hkk hk
              · rfl
            have hb : long_resolved keys_held n = false := by
              simp [long_resolved, h.1, h.2, h0, hk2]
            simp [long_check_pass, h, h0, hk, ih, hb, List.filter_cons]
      · have hb : long_resolved keys_held n = false := by
          simp only [long_resolved, Bool.and_eq_false_iff, Bool.and_eq_true, decide_eq_true_eq]
          by_cases h1 : n.type = NoteType.LONG
          · have h2 : n.holding = false := by
              cases hh : n.holding
              · rfl
              · exact absurd ⟨h1, hh⟩ h
            left; simp [h1, h2]
          · left; simp [h1]
        simp [long_check_pass, h, ih, hb, List.filter_cons]

/-- Whether the off-screen loop considers a note past the screen: the
position for a normal note, the tail for a long note, past
`SCREEN_HEIGHT + 50`. -/
def past_screen (n : Note) : Bool :=
  match n.type with
  | .NORMAL => n.is_off_screen SCREEN_HEIGHT
  | .LONG => decide (n.get_tail_y > SCREEN_HEIGHT + 50)

/-- What the off-screen loop keeps of one note, per the claim: an
unjudged past-screen note survives with its grace counter bumped until
the counter would reach 180; a judged past-screen note is dropped at
once; everything else is untouched. -/
def os_keep (n : Note) : Option Note :=
  if past_screen n then
    if n.hit then none
    else if n.off_screen_time + 1 ≥ 180 then none
    else some { n with off_screen_time := n.off_screen_time + 1 }
  else some n

/-- What the off-screen loop does to the ledger for one note: a Miss
exactly on the tick the grace counter reaches 180, a scoreless cleanup
for a judged note, nothing otherwise. -/
def os_act (n : Note) : Option EngineAction :=
  if past_screen n then
    if n.hit then some (EngineAction.cleanup n.id)
    else if n.off_screen_time + 1 ≥ 180 then some (EngineAction.resolve n.id JudgmentType.MISS)
    else none
  else none

lemma off_screen_pass_eq : ∀ ns : List Note,
    off_screen_pass ns = (ns.filterMap os_keep, ns.filterMap os_act) := by
  intro ns
  induction ns with
  | nil => rfl
  | cons n rest ih =>
      cases htype : n.type with
      | NORMAL =>
          by_cases hoff : n.is_off_screen SCREEN_HEIGHT
          · have hps : past_screen n = true := by simp [past_screen, htype, hoff]
            cases hhit : n.hit
            · by_cases h180 : n.off_screen_time + 1 ≥ 180
              · simp [off_screen_pass, htype, hoff, hhit, h180, ih, os_keep, os_act, hps,
                  List.filterMap_cons]
              · simp [off_screen_pass, htype, hoff, hhit, h180, ih, os_keep, os_act, hps,
                  List.filterMap_cons]
            · simp [off_screen_pass, htype, hoff, hhit, ih, os_keep, os_act, hps,
                List.filterMap_cons]
          · have hps : past_screen n = false := by
              simp only [past_screen, htype]
              exact Bool.not_eq_true _ ▸ (by simpa using hoff)
            simp [off_screen_pass, htype, hoff, ih, os_keep, os_act, hps, List.filterMap_cons]
      | LONG =>
          by_cases hoff : n.get_tail_y > SCREEN_HEIGHT + 50
          · have hps : past_screen n = true := by simp [past_screen, htype, hoff]
            cases hhit : n.hit
            · by_cases h180 : n.off_screen_time + 1 ≥ 180
              · simp [off_screen_pass, htype, hoff, hhit, h180, ih, os_keep, os_act, hps,
                  List.filterMap_cons]
              · simp [off_screen_pass, htype, hoff, hhit, h180, ih, os_keep, os_act, hps,
                  List.filterMap_cons]
            · simp [off_screen_pass, htype, hoff, hhit, ih, os_keep, os_act, hps,
                List.filterMap_cons]
          · have hps : past_screen n = false := by simp [past_screen, htype, hoff]
            simp [off_screen_pass, htype, hoff, ih, os_keep, os_act, hps, List.filterMap_cons]

/-- The condition under which the `check_note_hit` scan acts on a note
and stops: the pressed lane, not yet judged, and the (head) position
within the 60-unit hit window. -/
def triggers (line : ℚ) (lane : Nat) (n : Note) : Prop :=
  n.lane = lane ∧ n.hit = false ∧ |n.y - line| < 60

instance (line : ℚ) (lane : Nat) (n : Note) : Decidable (triggers line lane n) := by
  unfold triggers
  exact inferInstance

/-- The note `check_note_hit` leaves behind when it acts on `n`: a
normal note is removed, a long note is kept marked judged and holding. -/
def hit_transform (n : Note) : List Note :=
  if n.type = NoteType.NORMAL then [] else [{ n with hit := true, holding := true }]

/-- The action `check_note_hit` records when it acts on `n`. -/
def hit_action (line : ℚ) (n : Note) : EngineAction :=
  if n.type = NoteType.NORMAL then
    EngineAction.resolve n.id (calculate_judgment |n.y - line|)
  else
    EngineAction.holdStart n.id (calculate_judgment |n.y - line|)

lemma check_hit_cons_no_trigger (line : ℚ) (lane : Nat) (n : Note) (rest : List Note)
    (h : ¬ triggers line lane n) :
    check_hit line lane (n :: rest) =
      (n :: (check_hit line lane rest).1, (check_hit line lane rest).2) := by
  by_cases h1 : n.lane = lane ∧ n.hit = false
  · have h2 : ¬ |n.y - line| < 60 := fun hw => h ⟨h1.1, h1.2, hw⟩
    cases htype : n.type with
    | NORMAL => simp [check_hit, h1, htype, h2]
    | LONG => simp [check_hit, h1, htype, Note.get_head_y, h2]
  · simp [check_hit, h1]

lemma check_hit_cons_trigger (line : ℚ) (lane : Nat) (n : Note) (rest : List Note)
    (h : triggers line lane n) :
    check_hit line lane (n :: rest) = (hit_transform n ++ rest, [hit_action line n]) := by
  obtain ⟨h1, h2, h3⟩ := h
  cases htype : n.type with
  | NORMAL => simp [check_hit, h1, h2, htype, h3, hit_transform, hit_action,
      Note.get_distance_from_judgment_line]
  | LONG => simp [check_hit, h1, h2, htype, Note.get_head_y, h3, hit_transform, hit_action]

lemma check_hit_no_trigger (line : ℚ) (lane : Nat) : ∀ ns : List Note,
    (∀ n ∈ ns, ¬ triggers line lane n) → check_hit line lane ns = (ns, []) := by
  intro ns
  induction ns with
  | nil => intro _; rfl
  | cons n rest ih =>
      intro h
      rw [check_hit_cons_no_trigger line lane n rest (h n (by simp)),
        ih (fun m hm => h m (by simp [hm]))]

lemma check_hit_split (line : ℚ) (lane : Nat) (pre : List Note) (n : Note) (post : List Note)
    (hpre : ∀ m ∈ pre, ¬ triggers line lane m) (hn : triggers line lane n) :
    check_hit line lane (pre ++ n :: post) =
      (pre ++ hit_transform n ++ post, [hit_action line n]) := by
  induction pre with
  | nil => simp [check_hit_cons_trigger line lane n post hn]
  | cons m pre ih =>
      have hrec := ih (fun m hm => hpre m (by simp [hm]))
      rw [List.cons_append, check_hit_cons_no_trigger line lane m _ (hpre m (by simp)), hrec]
      simp

lemma check_hit_cases (line : ℚ) (lane : Nat) : ∀ ns : List Note,
    (check_hit line lane ns = (ns, []) ∧ ∀ n ∈ ns, ¬ triggers line lane n) ∨
    (∃ pre n post,
      ns = pre ++ n :: post ∧ (∀ m ∈ pre, ¬ triggers line lane m) ∧ triggers line lane n ∧
      check_hit line lane ns = (pre ++ hit_transform n ++ post, [hit_action line n])) := by
  intro ns
  induction ns with
  | nil => exact Or.inl ⟨rfl, by simp⟩
  | cons n rest ih =>
      by_cases hn : triggers line lane n
      · exact Or.inr ⟨[], n, rest, by simp, by simp, hn,
          by simpa using check_hit_cons_trigger line lane n rest hn⟩
      · rcases ih with ⟨heq, hall⟩ | ⟨pre, m, post, hsplit, hpre, hm, heq⟩
        · refine Or.inl ⟨?_, ?_⟩
          · rw [check_hit_cons_no_trigger line lane n rest hn, heq]
          · intro m hm
            rcases List.mem_cons.mp hm with h | h
            · exact h ▸ hn
            · exact hall m h
        · refine Or.inr ⟨n :: pre, m, post, by simp [hsplit], ?_, hm, ?_⟩
          · intro x hx
            rcases List.mem_cons.mp hx with h | h
            · exact h ▸ hn
            · exact hpre x h
          · rw [hsplit] at heq
            rw [hsplit, List.cons_append, check_hit_cons_no_trigger line lane n _ hn, heq]
            simp

lemma on_lane_press_eq (g : RhythmGame) (lane : Nat) :
    on_lane_press g lane =
      apply_actions
        { g with keys_held := fun k => if k = lane then true else g.keys_held k
                 notes := (check_hit g.judgment_line_y lane g.notes).1 }
        (check_hit g.judgment_line_y lane g.notes).2 := rfl

lemma on_lane_press_no_trigger (g : RhythmGame) (lane : Nat)
    (h : ∀ n ∈ g.notes, ¬ triggers g.judgment_line_y lane n) :
    (on_lane_press g lane).notes = g.notes ∧
    (on_lane_press g lane).score_manager = g.score_manager ∧
    (on_lane_press g lane).display = g.display := by
  rw [on_lane_press_eq, check_hit_no_trigger g.judgment_line_y lane g.notes h]
  exact ⟨rfl, rfl, rfl⟩

lemma on_lane_press_split (g : RhythmGame) (lane : Nat) (pre : List Note) (n : Note)
    (post : List Note) (hsplit : g.notes = pre ++ n :: post)
    (hpre : ∀ m ∈ pre, ¬ triggers g.judgment_line_y lane m)
    (hn : triggers g.judgment_line_y lane n) :
    (on_lane_press g lane).notes = pre ++ hit_transform n ++ post ∧
    (on_lane_press g lane).display =
      JudgmentDisplay.show_judgment (calculate_judgment |n.y - g.judgment_line_y|) ∧
    (on_lane_press g lane).score_manager =
      (if n.type = NoteType.NORMAL then
        g.score_manager.add_score (calculate_judgment |n.y - g.judgment_line_y|)
      else g.score_manager) := by
  rw [on_lane_press_eq, hsplit, check_hit_split g.judgment_line_y lane pre n post hpre hn]
  by_cases htype : n.type = NoteType.NORMAL
  · simp [htype, hit_action, apply_actions, apply_action]
  · simp [htype, hit_action, apply_actions, apply_action]

/-- The first note of the lane that is not yet judged (iteration order is
creation order), disregarding the hit window — the note the spec's
first-come wording designates. -/
def firstUnjudgedInLane (g : RhythmGame) (lane : Nat) : Option Note :=
  g.notes.find? (fun n => decide (n.lane = lane) && !n.hit)

/-- An unjudged lane-0 normal note 80 units below the line: active, but
outside the 60-unit hit window. -/
def cexA : Note := { id := 0, lane := 0, y := 580 }

/-- A second unjudged lane-0 normal note 10 units from the line, created
after `cexA`. -/
def cexB : Note := { id := 1, lane := 0, y := 510 }

/-- A game state whose first unjudged lane-0 note (`cexA`) is out of the
hit window while a later note (`cexB`) is in it. -/
def cexGame : RhythmGame :=
  { notes := [cexA, cexB]
    keys_held := fun _ => false
    score_manager := ScoreManager.init
    display := JudgmentDisplay.init
    note_speed := 5
    judgment_line_y := 500 }

/-- C3 counterexample: pressing lane 0 in `cexGame` does not select the
first unjudged note of the lane.  The first unjudged lane-0 note is
`cexA`, yet the press leaves `cexA` alone and resolves the later note
`cexB` (removing it and scoring 300 for a Perfect), because the scan in
`check_note_hit` skips an unjudged note that is outside the hit window
instead of stopping at it. -/
theorem claim_C3_counterexample :
    firstUnjudgedInLane cexGame 0 = some cexA ∧
    (on_lane_press cexGame 0).notes = [cexA] ∧
    cexB ∉ (on_lane_press cexGame 0).notes ∧
    (on_lane_press cexGame 0).score_manager.score = 300 := by
  refine ⟨rfl, ?_, ?_, ?_⟩
  · rw [show (on_lane_press cexGame 0).notes = [cexA] ++ hit_transform cexB ++ [] from
      (on_lane_press_split cexGame 0 [cexA] cexB [] rfl
        (by
          intro m hm
          simp only [List.mem_singleton] at hm
          subst hm
          intro ht
          have := ht.2.2
          norm_num [cexA, cexGame] at this)
        (by refine ⟨rfl, rfl, ?_⟩; norm_num [cexB, cexGame])).1]
    simp [hit_transform, cexB]
  · rw [show (on_lane_press cexGame 0).notes = [cexA] ++ hit_transform cexB ++ [] from
      (on_lane_press_split cexGame 0 [cexA] cexB [] rfl
        (by
          intro m hm
          simp only [List.mem_singleton] at hm
          subst hm
          intro ht
          have := ht.2.2
          norm_num [cexA, cexGame] at this)
        (by refine ⟨rfl, rfl, ?_⟩; norm_num [cexB, cexGame])).1]
    simp [hit_transform, cexB, cexA]
  · have h := (on_lane_press_split cexGame 0 [cexA] cexB [] rfl
      (by
        intro m hm
        simp only [List.mem_singleton] at hm
        subst hm
        intro ht
        have := ht.2.2
        norm_num [cexA, cexGame] at this)
      (by refine ⟨rfl, rfl, ?_⟩; norm_num [cexB, cexGame])).2.2
    rw [if_pos (show cexB.type = NoteType.NORMAL from rfl)] at h
    rw [h]
    have : calculate_judgment |cexB.y - cexGame.judgment_line_y| = JudgmentType.PERFECT := by
      norm_num [cexB, cexGame, calculate_judgment]
    rw [this]
    rfl

/-- C3 amended: `on_lane_press` selects the first unjudged note of the
lane **whose (head) position is in the hit window**, in creation
(iteration) order — still a first-come policy among in-window notes, not
nearest-distance — resolves at most that one note (every other note is
kept unchanged, in place), and when no note of the lane is in the hit
window the press changes no score, combo, display or note state and
removes no note. -/
theorem claim_C3_press_selection (g : RhythmGame) (lane : Nat) :
    ((∀ n ∈ g.notes, ¬ triggers g.judgment_line_y lane n) →
      (on_lane_press g lane).notes = g.notes ∧
      (on_lane_press g lane).score_manager = g.score_manager ∧
      (on_lane_press g lane).display = g.display) ∧
    (∀ pre n post, g.notes = pre ++ n :: post →
      (∀ m ∈ pre, ¬ triggers g.judgment_line_y lane m) →
      triggers g.judgment_line_y lane n →
      (on_lane_press g lane).notes = pre ++ hit_transform n ++ post) := by
  refine ⟨on_lane_press_no_trigger g lane, ?_⟩
  intro pre n post hsplit hpre hn
  exact (on_lane_press_split g lane pre n post hsplit hpre hn).1

/-- Witness for the amended C3 at `cexGame`: pressing lane 1 (no note
there) is a no-op, and pressing lane 0 resolves exactly the in-window
note. -/
theorem claim_C3_press_selection_witness :
    ((on_lane_press cexGame 1).notes = cexGame.notes ∧
      (on_lane_press cexGame 1).score_manager = cexGame.score_manager ∧
      (on_lane_press cexGame 1).display = cexGame.display) ∧
    (on_lane_press cexGame 0).notes = [cexA] ++ hit_transform cexB ++ [] :=
  ⟨(claim_C3_press_selection cexGame 1).1
    (by
      intro n hn ht
      have h1 := ht.1
      simp only [cexGame, List.mem_cons, List.mem_singleton] at hn
      rcases hn with h | h | h
      · subst h; simp [cexA] at h1
      · subst h; simp [cexB] at h1
      · simp at h),
   (claim_C3_press_selection cexGame 0).2 [cexA] cexB [] rfl
    (by
      intro m hm
      simp only [List.mem_singleton] at hm
      subst hm
      intro ht
      have := ht.2.2
      norm_num [cexA, cexGame] at this)
    (by refine ⟨rfl, rfl, ?_⟩; norm_num [cexB, cexGame])⟩

/-- C8: when the scan of `on_lane_press` reaches a hold note whose head
is in the hit window, it marks it judged, sets it holding, shows the
classified tier, but leaves the score manager (score, combo, max combo)
untouched and removes nothing: the head judgment only starts the hold. -/
theorem claim_C8_hold_head_judgment (g : RhythmGame) (lane : Nat) (pre : List Note) (n : Note)
    (post : List Note) (hsplit : g.notes = pre ++ n :: post)
    (hpre : ∀ m ∈ pre, ¬ triggers g.judgment_line_y lane m)
    (hn : triggers g.judgment_line_y lane n) (htype : n.type = NoteType.LONG) :
    (on_lane_press g lane).notes = pre ++ { n with hit := true, holding := true } :: post ∧
    (on_lane_press g lane).score_manager = g.score_manager ∧
    (on_lane_press g lane).display =
      JudgmentDisplay.show_judgment (calculate_judgment |n.y - g.judgment_line_y|) ∧
    (on_lane_press g lane).notes.length = g.notes.length := by
  obtain ⟨h1, h2, h3⟩ := on_lane_press_split g lane pre n post hsplit hpre hn
  have hne : ¬ n.type = NoteType.NORMAL := by simp [htype]
  have htrans : hit_transform n = [{ n with hit := true, holding := true }] := by
    simp [hit_transform, hne]
  refine ⟨by rw [h1, htrans]; simp, by rw [h3, if_neg hne], h2, ?_⟩
  rw [h1, htrans, hsplit]
  simp

/-- A long note whose head is 20 units above the line, used for the C8
witness. -/
def cexHold : Note := { id := 7, lane := 2, y := 480, type := .LONG, length := 100 }

/-- A game containing only `cexHold`. -/
def cexHoldGame : RhythmGame :=
  { notes := [cexHold]
    keys_held := fun _ => false
    score_manager := ScoreManager.init
    display := JudgmentDisplay.init
    note_speed := 5
    judgment_line_y := 500 }

/-- Witness for C8: judging `cexHold`'s head starts the hold, keeps the
note, and leaves the ledger untouched. -/
theorem claim_C8_hold_head_judgment_witness :
    (on_lane_press cexHoldGame 2).notes =
      [] ++ { cexHold with hit := true, holding := true } :: [] ∧
    (on_lane_press cexHoldGame 2).score_manager = cexHoldGame.score_manager ∧
    (on_lane_press cexHoldGame 2).display =
      JudgmentDisplay.show_judgment (calculate_judgment |cexHold.y - cexHoldGame.judgment_line_y|) ∧
    (on_lane_press cexHoldGame 2).notes.length = cexHoldGame.notes.length :=
  claim_C8_hold_head_judgment cexHoldGame 2 [] cexHold [] rfl (by simp)
    (by refine ⟨rfl, rfl, ?_⟩; norm_num [cexHold, cexHoldGame]) rfl

lemma apply_action_notes (g : RhythmGame) (a : EngineAction) : (apply_action g a).notes = g.notes := by
  cases a <;> rfl

lemma apply_actions_notes (acts : List EngineAction) : ∀ g : RhythmGame,
    (apply_actions g acts).notes = g.notes := by
  induction acts with
  | nil => intro g; rfl
  | cons a rest ih =>
      intro g
      rw [apply_actions, List.foldl_cons, ← apply_actions, ih, apply_action_notes]

lemma apply_action_keys (g : RhythmGame) (a : EngineAction) :
    (apply_action g a).keys_held = g.keys_held := by
  cases a <;> rfl

lemma apply_actions_keys (acts : List EngineAction) : ∀ g : RhythmGame,
    (apply_actions g acts).keys_held = g.keys_held := by
  induction acts with
  | nil => intro g; rfl
  | cons a rest ih =>
      intro g
      rw [apply_actions, List.foldl_cons, ← apply_actions, ih, apply_action_keys]

lemma apply_action_line (g : RhythmGame) (a : EngineAction) :
    (apply_action g a).judgment_line_y = g.judgment_line_y := by
  cases a <;> rfl

lemma apply_actions_line (acts : List EngineAction) : ∀ g : RhythmGame,
    (apply_actions g acts).judgment_line_y = g.judgment_line_y := by
  induction acts with
  | nil => intro g; rfl
  | cons a rest ih =>
      intro g
      rw [apply_actions, List.foldl_cons, ← apply_actions, ih, apply_action_line]

lemma apply_action_speed (g : RhythmGame) (a : EngineAction) :
    (apply_action g a).note_speed = g.note_speed := by
  cases a <;> rfl

lemma apply_actions_speed (acts : List EngineAction) : ∀ g : RhythmGame,
    (apply_actions g acts).note_speed = g.note_speed := by
  induction acts with
  | nil => intro g; rfl
  | cons a rest ih =>
      intro g
      rw [apply_actions, List.foldl_cons, ← apply_actions, ih, apply_action_speed]

lemma on_lane_release_eq (g : RhythmGame) (lane : Nat) :
    on_lane_release g lane =
      apply_actions
        { g with keys_held := fun k => if k = lane then false else g.keys_held k
                 notes := (release_pass g.judgment_line_y lane g.notes).1 }
        (release_pass g.judgment_line_y lane g.notes).2 := rfl

lemma releaseA_acts (g : RhythmGame) (lane : Nat) :
    (releaseA g lane).2 = (release_pass g.judgment_line_y lane g.notes).2 := rfl

lemma on_lane_release_notes (g : RhythmGame) (lane : Nat) :
    (on_lane_release g lane).notes = (release_pass g.judgment_line_y lane g.notes).1 := by
  rw [on_lane_release_eq, apply_actions_notes]

lemma tick_notes (g : RhythmGame) :
    (tick g).notes =
      (off_screen_pass
        (long_check_pass g.keys_held (g.notes.map (fun n => n.update g.note_speed))).1).1 := by
  show (tickA g).1.notes = _
  unfold tickA
  rw [apply_actions_notes]

/-- C5: the per-frame long-note loop, over any note list and key state:
it removes exactly the holding long notes that are finished
(`length ≤ 0`) or whose key is up, the finished ones first being given
the completion verdict (Great when the key is still down, Miss
otherwise) and only the unfinished ones the early-release Miss; every
note it resolves it also removes, and the tick runs this loop on the
advanced notes before the off-screen loop.  A `resolve` action performs
`add_score` with its tier. -/
theorem claim_C5_frame_hold_check :
    (∀ (keys_held : Nat → Bool) (ns : List Note),
      (long_check_pass keys_held ns).1 = ns.filter (fun n => !(long_resolved keys_held n)) ∧
      (long_check_pass keys_held ns).2 =
        (ns.filter (long_resolved keys_held)).map
          (fun n => EngineAction.resolve n.id (long_verdict keys_held n))) ∧
    (∀ (keys_held : Nat → Bool) (n : Note),
      long_resolved keys_held n =
        (decide (n.type = NoteType.LONG) && n.holding &&
          (decide (n.length ≤ 0) || !keys_held n.lane)) ∧
      long_verdict keys_held n =
        if n.length ≤ 0 then
          (if keys_held n.lane then JudgmentType.GREAT else JudgmentType.MISS)
        else JudgmentType.MISS) ∧
    (∀ g : RhythmGame,
      (tick g).notes =
        (off_screen_pass
          (long_check_pass g.keys_held (g.notes.map (fun n => n.update g.note_speed))).1).1) ∧
    (∀ (g : RhythmGame) (i : Nat) (j : JudgmentType),
      (apply_action g (EngineAction.resolve i j)).score_manager =
        g.score_manager.add_score j) := by
  refine ⟨?_, ?_, tick_notes, fun g i j => rfl⟩
  · intro keys_held ns
    rw [long_check_pass_eq]
    exact ⟨rfl, rfl⟩
  · intro keys_held n
    exact ⟨rfl, rfl⟩

/-- C6: on a lane release, every holding long note of that lane is given
Great exactly when its tail has passed `judgment_line + 30` and Miss
otherwise, and in both cases the note is removed from the active set. -/
theorem claim_C6_release_tail_verdict (g : RhythmGame) (lane : Nat) (n : Note)
    (hmem : n ∈ g.notes) (hlane : n.lane = lane) (htype : n.type = NoteType.LONG)
    (hhold : n.holding = true) :
    EngineAction.resolve n.id
        (if n.get_tail_y ≥ g.judgment_line_y + 30 then JudgmentType.GREAT else JudgmentType.MISS)
      ∈ (releaseA g lane).2 ∧
    n ∉ (on_lane_release g lane).notes := by
  have hmatch : release_match lane n = true := by
    simp [release_match, hlane, htype, hhold]
  constructor
  · rw [releaseA_acts, release_pass_eq]
    simp only [List.mem_map]
    exact ⟨n, List.mem_filter.mpr ⟨hmem, hmatch⟩, by rw [release_verdict]⟩
  · rw [on_lane_release_notes, release_pass_eq]
    intro hmem2
    have := (List.mem_filter.mp hmem2).2
    rw [hmatch] at this
    simp at this

/-- Witness for C6: releasing lane 0 on a game holding `wHeld` (tail at
497, short of 530) records a Miss and removes the note. -/
theorem claim_C6_release_tail_verdict_witness :
    EngineAction.resolve wHeld.id
        (if wHeld.get_tail_y ≥ (500 : ℚ) + 30 then JudgmentType.GREAT else JudgmentType.MISS)
      ∈ (releaseA
          { notes := [wHeld]
            keys_held := fun _ => false
            score_manager := ScoreManager.init
            display := JudgmentDisplay.init
            note_speed := 5
            judgment_line_y := 500 } 0).2 ∧
    wHeld ∉ (on_lane_release
          { notes := [wHeld]
            keys_held := fun _ => false
            score_manager := ScoreManager.init
            display := JudgmentDisplay.init
            note_speed := 5
            judgment_line_y := 500 } 0).notes :=
  claim_C6_release_tail_verdict _ 0 wHeld (by simp) rfl rfl rfl

lemma on_lane_press_line (g : RhythmGame) (lane : Nat) :
    (on_lane_press g lane).judgment_line_y = g.judgment_line_y := by
  rw [on_lane_press_eq, apply_actions_line]

lemma step_press (g : RhythmGame) (lane : Nat) : step g (Ev.press lane) = on_lane_press g lane :=
  rfl

/-- First long note of the two-concurrent-holds scenario: head on the
line, length 100. -/
def holdL1 : Note := { id := 1, lane := 0, y := 500, type := .LONG, length := 100 }

/-- Second long note of the same lane, head 40 below the line, length
5 (its tail is already past `line + 30`). -/
def holdL2 : Note := { id := 2, lane := 0, y := 540, type := .LONG, length := 5 }

/-- `holdL1` after its head judgment. -/
def holdL1h : Note :=
  { id := 1, lane := 0, y := 500, hit := true, type := .LONG, length := 100, holding := true }

/-- `holdL2` after its head judgment. -/
def holdL2h : Note :=
  { id := 2, lane := 0, y := 540, hit := true, type := .LONG, length := 5, holding := true }

/-- Game with both long notes of lane 0 in the hit window. -/
def holdPairGame : RhythmGame :=
  { notes := [holdL1, holdL2]
    keys_held := fun _ => false
    score_manager := ScoreManager.init
    display := JudgmentDisplay.init
    note_speed := 5
    judgment_line_y := 500 }

lemma holdPair_press1 : (on_lane_press holdPairGame 0).notes = [holdL1h, holdL2] := by
  have h := (on_lane_press_split holdPairGame 0 [] holdL1 [holdL2] rfl (by simp)
    ⟨rfl, rfl, by norm_num [holdL1, holdPairGame]⟩).1
  rw [h]
  simp [hit_transform, holdL1, holdL1h]

lemma holdPair_press2 :
    (on_lane_press (on_lane_press holdPairGame 0) 0).notes = [holdL1h, holdL2h] := by
  have hline : (on_lane_press holdPairGame 0).judgment_line_y = 500 :=
    on_lane_press_line holdPairGame 0
  have hsplit : (on_lane_press holdPairGame 0).notes = [holdL1h] ++ holdL2 :: [] := by
    rw [holdPair_press1]; rfl
  have h := (on_lane_press_split (on_lane_press holdPairGame 0) 0 [holdL1h] holdL2 [] hsplit
    (by
      intro m hm
      simp only [List.mem_singleton] at hm
      subst hm
      intro ht
      have := ht.2.1
      simp [holdL1h] at this)
    ⟨rfl, rfl, by rw [hline]; norm_num [holdL2]⟩).1
  rw [h]
  simp [hit_transform, holdL2, holdL2h]

lemma holdPair_run :
    (runGame holdPairGame [Ev.press 0, Ev.press 0]).notes = [holdL1h, holdL2h] := by
  show (step (step holdPairGame (Ev.press 0)) (Ev.press 0)).notes = _
  rw [step_press, step_press]
  exact holdPair_press2

lemma holdPair_run_line :
    (runGame holdPairGame [Ev.press 0, Ev.press 0]).judgment_line_y = 500 := by
  show (step (step holdPairGame (Ev.press 0)) (Ev.press 0)).judgment_line_y = 500
  rw [step_press, step_press, on_lane_press_line, on_lane_press_line]
  rfl

/-- C10: a single `release_long_notes` call resolves and removes every
holding long note of the lane (the scan does not stop at the first
match), each scored independently by its own tail position; and two
concurrent holds in one lane are reachable — a second press skips the
already judged first hold note and starts a second hold — after which a
single release resolves both (here the first as Miss, the second as
Great) and leaves the lane empty. -/
theorem claim_C10_release_resolves_all :
    (∀ (g : RhythmGame) (lane : Nat),
      (on_lane_release g lane).notes = g.notes.filter (fun n => !(release_match lane n)) ∧
      (releaseA g lane).2 =
        (g.notes.filter (release_match lane)).map
          (fun n => EngineAction.resolve n.id (release_verdict g.judgment_line_y n))) ∧
    ((runGame holdPairGame [Ev.press 0, Ev.press 0]).notes.filter (release_match 0)
        = [holdL1h, holdL2h] ∧
      (releaseA (runGame holdPairGame [Ev.press 0, Ev.press 0]) 0).2 =
        [EngineAction.resolve 1 JudgmentType.MISS, EngineAction.resolve 2 JudgmentType.GREAT] ∧
      (on_lane_release (runGame holdPairGame [Ev.press 0, Ev.press 0]) 0).notes = []) := by
  have hmatch1 : release_match 0 holdL1h = true := by simp [release_match, holdL1h]
  have hmatch2 : release_match 0 holdL2h = true := by simp [release_match, holdL2h]
  refine ⟨?_, ?_, ?_, ?_⟩
  · intro g lane
    rw [on_lane_release_notes, releaseA_acts, release_pass_eq]
    exact ⟨rfl, rfl⟩
  · rw [holdPair_run]
    simp [List.filter_cons, hmatch1, hmatch2]
  · rw [releaseA_acts, release_pass_eq, holdPair_run, holdPair_run_line]
    simp only [List.filter_cons, hmatch1, hmatch2, if_pos, List.filter_nil, List.map_cons,
      List.map_nil]
    have hv1 : release_verdict 500 holdL1h = JudgmentType.MISS := by
      norm_num [release_verdict, holdL1h, Note.get_tail_y]
    have hv2 : release_verdict 500 holdL2h = JudgmentType.GREAT := by
      norm_num [release_verdict, holdL2h, Note.get_tail_y]
    rw [hv1, hv2]
    simp [holdL1h, holdL2h]
  · rw [on_lane_release_notes, release_pass_eq, holdPair_run]
    simp [List.filter_cons, hmatch1, hmatch2]

/-- An unjudged normal note past the screen with grace counter `c`. -/
def osNote (c : Nat) (y : ℚ) : Note := { id := 0, lane := 0, y := y, off_screen_time := c }

/-- A game containing only `osNote c y`, no key held. -/
def osGame (c : Nat) (y : ℚ) : RhythmGame :=
  { notes := [osNote c y]
    keys_held := fun _ => false
    score_manager := ScoreManager.init
    display := JudgmentDisplay.init
    note_speed := 5
    judgment_line_y := 500 }

lemma tick_no_acts (g : RhythmGame) (X Y : List Note)
    (h1 : long_check_pass g.keys_held (g.notes.map (fun n => n.update g.note_speed)) = (X, []))
    (h2 : off_screen_pass X = (Y, [])) :
    tick g = { g with notes := Y, display := g.display.update } ∧ (tickA g).2 = [] := by
  show (tickA g).1 = _ ∧ _
  simp only [tickA, h1, h2]
  constructor
  · rfl
  · rfl

lemma tick_parts (g : RhythmGame) (X Y : List Note) (a1 a2 : List EngineAction)
    (h1 : long_check_pass g.keys_held (g.notes.map (fun n => n.update g.note_speed)) = (X, a1))
    (h2 : off_screen_pass X = (Y, a2)) :
    (tickA g).2 = a1 ++ a2 ∧ (tick g).notes = Y := by
  constructor
  · show (tickA g).2 = _
    simp only [tickA, h1, h2]
  · rw [tick_notes, h1]
    simp only [h2]

lemma long_check_single_normal (keys : Nat → Bool) (n : Note) (h : n.type = NoteType.NORMAL) :
    long_check_pass keys [n] = ([n], []) := by
  simp [long_check_pass, h]

lemma off_screen_single_keep (c : Nat) (y : ℚ) (hc : c + 1 < 180) (hy : y > 650) :
    off_screen_pass [osNote c y] = ([osNote (c + 1) y], []) := by
  have hc2 : ¬ (179 ≤ c) := by omega
  simp [off_screen_pass, osNote, Note.is_off_screen, SCREEN_HEIGHT, hy, hc2]
  norm_num
  linarith

lemma off_screen_single_fire (c : Nat) (y : ℚ) (hc : 179 ≤ c) (hy : y > 650) :
    off_screen_pass [osNote c y] = ([], [EngineAction.resolve 0 JudgmentType.MISS]) := by
  simp [off_screen_pass, osNote, Note.is_off_screen, SCREEN_HEIGHT, hy, hc]
  linarith

lemma osGame_step (c : Nat) (y : ℚ) (hc : c + 1 < 180) (hy : y > 650) :
    step (osGame c y) Ev.tick = osGame (c + 1) (y + 5) ∧
    (stepA (osGame c y) Ev.tick).2 = [] := by
  have hmove : (osGame c y).notes.map (fun n => n.update (osGame c y).note_speed)
      = [osNote c (y + 5)] := by
    simp [osGame, Note.update, osNote]
  have h1 : long_check_pass (osGame c y).keys_held
      ((osGame c y).notes.map (fun n => n.update (osGame c y).note_speed))
      = ([osNote c (y + 5)], []) := by
    rw [hmove]
    exact long_check_single_normal (osGame c y).keys_held (osNote c (y + 5)) rfl
  have h2 := off_screen_single_keep c (y + 5) hc (by linarith)
  have h := tick_no_acts (osGame c y) _ _ h1 h2
  exact ⟨h.1, h.2⟩

lemma osGame_fire (c : Nat) (y : ℚ) (hc : c + 1 = 180) (hy : y > 650) :
    (stepA (osGame c y) Ev.tick).2 = [EngineAction.resolve 0 JudgmentType.MISS] ∧
    (step (osGame c y) Ev.tick).notes = [] := by
  have hmove : (osGame c y).notes.map (fun n => n.update (osGame c y).note_speed)
      = [osNote c (y + 5)] := by
    simp [osGame, Note.update, osNote]
  have h1 : long_check_pass (osGame c y).keys_held
      ((osGame c y).notes.map (fun n => n.update (osGame c y).note_speed))
      = ([osNote c (y + 5)], []) := by
    rw [hmove]
    exact long_check_single_normal (osGame c y).keys_held (osNote c (y + 5)) rfl
  have h2 := off_screen_single_fire c (y + 5) (by omega) (by linarith)
  have h := tick_parts (osGame c y) _ _ _ _ h1 h2
  exact ⟨h.1, h.2⟩

lemma osGame_run (k : Nat) : ∀ (c : Nat) (y : ℚ), c + k < 180 → y > 650 →
    runGame (osGame c y) (List.replicate k Ev.tick) = osGame (c + k) (y + 5 * k) ∧
    traceActions (osGame c y) (List.replicate k Ev.tick) = [] := by
  induction k with
  | zero =>
      intro c y h1 h2
      constructor
      · show osGame c y = osGame (c + 0) (y + 5 * (0 : ℕ))
        norm_num
      · rfl
  | succ k ih =>
      intro c y h1 h2
      have hstep := osGame_step c y (by omega) h2
      rw [List.replicate_succ]
      have hrec := ih (c + 1) (y + 5) (by omega) (by linarith)
      constructor
      · show runGame (step (osGame c y) Ev.tick) _ = _
        rw [hstep.1, hrec.1]
        have hn : c + 1 + k = c + (k + 1) := by omega
        have hq : y + 5 + 5 * (k : ℚ) = y + 5 * ((k : ℚ) + 1) := by ring
        rw [hn]
        congr 1
        push_cast
        linarith
      · show (stepA (osGame c y) Ev.tick).2 ++ traceActions (step (osGame c y) Ev.tick) _ = []
        rw [hstep.2, hstep.1, hrec.2]
        rfl

lemma osGame_run_fire (k : Nat) : ∀ (c : Nat) (y : ℚ), c + k + 1 = 180 → y > 650 →
    traceActions (osGame c y) (List.replicate (k + 1) Ev.tick) =
      [EngineAction.resolve 0 JudgmentType.MISS] ∧
    (runGame (osGame c y) (List.replicate (k + 1) Ev.tick)).notes = [] := by
  induction k with
  | zero =>
      intro c y h1 h2
      have hfire := osGame_fire c y (by omega) h2
      constructor
      · show (stepA (osGame c y) Ev.tick).2 ++ traceActions (step (osGame c y) Ev.tick) [] = _
        rw [hfire.1]
        rfl
      · show (runGame (step (osGame c y) Ev.tick) []).notes = []
        exact hfire.2
  | succ k ih =>
      intro c y h1 h2
      have hstep := osGame_step c y (by omega) h2
      have hrec := ih (c + 1) (y + 5) (by omega) (by linarith)
      rw [show k + 1 + 1 = (k + 1) + 1 from rfl, List.replicate_succ]
      constructor
      · show (stepA (osGame c y) Ev.tick).2 ++ traceActions (step (osGame c y) Ev.tick) _ = _
        rw [hstep.2, hstep.1, hrec.1]
        rfl
      · show (runGame (step (osGame c y) Ev.tick) _).notes = []
        rw [hstep.1]
        exact hrec.2

/-- C7: the off-screen loop acts per the grace rule: it keeps an unjudged
past-screen note with its grace counter bumped until the counter reaches
180 (no scoring on those ticks), resolves it as Miss exactly on the tick
the counter reaches 180, and drops an already judged past-screen note at
once with a scoreless cleanup.  On the single-note game `osGame c y` the
timing is exact: starting with counter `c < 180` and the note past the
screen, `k` ticks with `c + k < 180` score nothing and leave the note
with counter `c + k`, while the `(180 - c)`-th tick records exactly one
Miss and removes the note. -/
theorem claim_C7_offscreen_grace :
    (∀ ns : List Note,
      (off_screen_pass ns).1 = ns.filterMap os_keep ∧
      (off_screen_pass ns).2 = ns.filterMap os_act) ∧
    (∀ n : Note, past_screen n = true → n.hit = true →
      os_act n = some (EngineAction.cleanup n.id) ∧ os_keep n = none) ∧
    (∀ (g : RhythmGame) (i : Nat), apply_action g (EngineAction.cleanup i) = g) ∧
    (∀ (c k : Nat) (y : ℚ), c + k < 180 → y > 650 →
      runGame (osGame c y) (List.replicate k Ev.tick) = osGame (c + k) (y + 5 * k) ∧
      traceActions (osGame c y) (List.replicate k Ev.tick) = []) ∧
    (∀ (c k : Nat) (y : ℚ), c + k + 1 = 180 → y > 650 →
      traceActions (osGame c y) (List.replicate (k + 1) Ev.tick) =
        [EngineAction.resolve 0 JudgmentType.MISS] ∧
      (runGame (osGame c y) (List.replicate (k + 1) Ev.tick)).notes = []) := by
  refine ⟨?_, ?_, fun g i => rfl, ?_, ?_⟩
  · intro ns
    rw [off_screen_pass_eq]
    exact ⟨rfl, rfl⟩
  · intro n hps hhit
    constructor
    · simp [os_act, hps, hhit]
    · simp [os_keep, hps, hhit]
  · intro c k y h1 h2
    exact osGame_run k c y h1 h2
  · intro c k y h1 h2
    exact osGame_run_fire k c y h1 h2

/-- A judged normal note past the screen, for the C7 witness. -/
def osDoneNote : Note := { id := 5, lane := 0, y := 700, hit := true }

/-- Witness for C7: three silent grace ticks from counter 0, the Miss
fired by the 180th tick, and the scoreless cleanup of a judged note. -/
theorem claim_C7_offscreen_grace_witness :
    (runGame (osGame 0 700) (List.replicate 3 Ev.tick) = osGame (0 + 3) (700 + 5 * 3) ∧
      traceActions (osGame 0 700) (List.replicate 3 Ev.tick) = []) ∧
    (traceActions (osGame 0 700) (List.replicate (179 + 1) Ev.tick) =
        [EngineAction.resolve 0 JudgmentType.MISS] ∧
      (runGame (osGame 0 700) (List.replicate (179 + 1) Ev.tick)).notes = []) ∧
    (os_act osDoneNote = some (EngineAction.cleanup osDoneNote.id) ∧
      os_keep osDoneNote = none) := by
  refine ⟨?_, ?_, ?_⟩
  · have h := claim_C7_offscreen_grace.2.2.2.1 0 3 700 (by norm_num) (by norm_num)
    have h3 : ((3 : ℕ) : ℚ) = (3 : ℚ) := by norm_num
    constructor
    · rw [h.1, h3]
    · exact h.2
  · exact claim_C7_offscreen_grace.2.2.2.2 0 179 700 (by norm_num) (by norm_num)
  · exact claim_C7_offscreen_grace.2.1 osDoneNote
      (by simp only [past_screen, osDoneNote, Note.is_off_screen, SCREEN_HEIGHT]; norm_num) rfl

lemma Note.update_id (n : Note) (s : ℚ) : (n.update s).id = n.id := by
  cases htype : n.type <;> simp [Note.update, htype] <;> split <;> rfl

lemma Note.update_holding (n : Note) (s : ℚ) : (n.update s).holding = n.holding := by
  cases htype : n.type <;> simp [Note.update, htype] <;> split <;> rfl

lemma Note.update_hit (n : Note) (s : ℚ) : (n.update s).hit = n.hit := by
  cases htype : n.type <;> simp [Note.update, htype] <;> split <;> rfl

lemma ids_nodup_inj : ∀ ns : List Note, (idsOf ns).Nodup →
    ∀ m ∈ ns, ∀ n ∈ ns, m.id = n.id → m = n := by
  intro ns
  induction ns with
  | nil => intro _ m hm; simp at hm
  | cons a rest ih =>
      intro hnd m hm n hn hid
      have hnd2 : (idsOf rest).Nodup := by
        simpa [idsOf] using hnd.of_cons
      have hna : a.id ∉ idsOf rest := by
        have := hnd
        simp only [idsOf, List.map_cons, List.nodup_cons] at this
        exact this.1
      rcases List.mem_cons.mp hm with h1 | h1 <;> rcases List.mem_cons.mp hn with h2 | h2
      · rw [h1, h2]
      · exfalso
        apply hna
        rw [h1] at hid
        rw [hid]
        exact List.mem_map_of_mem Note.id h2
      · exfalso
        apply hna
        rw [h2] at hid
        rw [← hid]
        exact List.mem_map_of_mem Note.id h1
      · exact ih hnd2 m h1 n h2 hid

lemma removalIds_append (a b : List EngineAction) :
    removalIds (a ++ b) = removalIds a ++ removalIds b := by
  simp [removalIds]

lemma idsOf_append (a b : List Note) : idsOf (a ++ b) = idsOf a ++ idsOf b := by
  simp [idsOf]

lemma perm_juggle {A B C D E : List Nat} (h1 : (A ++ C).Perm D) (h2 : (D ++ B).Perm E) :
    (A ++ (B ++ C)).Perm E := by
  have s1 : (A ++ (B ++ C)).Perm (A ++ (C ++ B)) :=
    List.Perm.append_left A (List.perm_append_comm)
  have s2 : A ++ (C ++ B) = (A ++ C) ++ B := by rw [List.append_assoc]
  have s3 : ((A ++ C) ++ B).Perm (D ++ B) := List.Perm.append_right B h1
  exact ((s1.trans (s2 ▸ List.Perm.refl _)).trans s3).trans h2

lemma check_hit_perm (line : ℚ) (lane : Nat) (ns : List Note) :
    (idsOf (check_hit line lane ns).1 ++ removalIds (check_hit line lane ns).2).Perm
      (idsOf ns) := by
  rcases check_hit_cases line lane ns with ⟨heq, _⟩ | ⟨pre, n, post, hsplit, _, htrig, heq⟩
  · rw [heq]
    simp [removalIds]
  · rw [heq, hsplit]
    by_cases htype : n.type = NoteType.NORMAL
    · have hids : idsOf (pre ++ hit_transform n ++ post) = idsOf pre ++ idsOf post := by
        simp [hit_transform, htype, idsOf]
      have hrem : removalIds [hit_action line n] = [n.id] := by
        simp [hit_action, htype, removalIds, EngineAction.removalId]
      rw [hids, hrem,
        show idsOf (pre ++ n :: post) = idsOf pre ++ n.id :: idsOf post from by simp [idsOf]]
      have h1 : ((idsOf pre ++ idsOf post) ++ [n.id]).Perm
          ([n.id] ++ (idsOf pre ++ idsOf post)) := List.perm_append_comm
      refine h1.trans ?_
      show (n.id :: (idsOf pre ++ idsOf post)).Perm _
      exact List.perm_middle.symm
    · have hids : idsOf (pre ++ hit_transform n ++ post) = idsOf pre ++ n.id :: idsOf post := by
        simp [hit_transform, htype, idsOf]
      have hrem : removalIds [hit_action line n] = [] := by
        simp [hit_action, htype, removalIds, EngineAction.removalId]
      rw [hids, hrem, List.append_nil,
        show idsOf (pre ++ n :: post) = idsOf pre ++ n.id :: idsOf post from by simp [idsOf]]

lemma release_perm (line : ℚ) (lane : Nat) : ∀ ns : List Note,
    (idsOf (release_pass line lane ns).1 ++ removalIds (release_pass line lane ns).2).Perm
      (idsOf ns) := by
  intro ns
  induction ns with
  | nil => simp [release_pass, idsOf, removalIds]
  | cons n rest ih =>
      by_cases h : n.lane = lane ∧ n.type = NoteType.LONG ∧ n.holding = true
      · simp only [release_pass, if_pos h, removalIds, List.filterMap_cons,
          EngineAction.removalId, idsOf, List.map_cons]
        exact List.perm_middle.trans (ih.cons n.id)
      · simp only [release_pass, if_neg h, idsOf, List.map_cons, List.cons_append]
        exact ih.cons n.id

lemma long_check_perm (keys_held : Nat → Bool) : ∀ ns : List Note,
    (idsOf (long_check_pass keys_held ns).1 ++
        removalIds (long_check_pass keys_held ns).2).Perm (idsOf ns) := by
  intro ns
  induction ns with
  | nil => simp [long_check_pass, idsOf, removalIds]
  | cons n rest ih =>
      by_cases h : n.type = NoteType.LONG ∧ n.holding = true
      · by_cases h0 : n.length ≤ 0
        · simp only [long_check_pass, if_pos h, if_pos h0, removalIds, List.filterMap_cons,
            EngineAction.removalId, idsOf, List.map_cons]
          exact List.perm_middle.trans (ih.cons n.id)
        · by_cases hk : keys_held n.lane = false
          · simp only [long_check_pass, if_pos h, if_neg h0, if_pos hk, removalIds,
              List.filterMap_cons, EngineAction.removalId, idsOf, List.map_cons]
            exact List.perm_middle.trans (ih.cons n.id)
          · simp only [long_check_pass, if_pos h, if_neg h0, if_neg hk, idsOf, List.map_cons,
              List.cons_append]
            exact ih.cons n.id
      · simp only [long_check_pass, if_neg h, idsOf, List.map_cons, List.cons_append]
        exact ih.cons n.id

lemma off_screen_perm : ∀ ns : List Note,
    (idsOf (off_screen_pass ns).1 ++ removalIds (off_screen_pass ns).2).Perm (idsOf ns) := by
  intro ns
  induction ns with
  | nil => simp [off_screen_pass, idsOf, removalIds]
  | cons n rest ih =>
      cases htype : n.type with
      | NORMAL =>
          by_cases hoff : n.is_off_screen SCREEN_HEIGHT = true
          · cases hhit : n.hit
            · by_cases h180 : n.off_screen_time + 1 ≥ 180
              · simp only [off_screen_pass, htype, hoff, hhit, if_pos h180, if_true, if_false,
                  removalIds, List.filterMap_cons, EngineAction.removalId, idsOf, List.map_cons]
                exact List.perm_middle.trans (ih.cons n.id)
              · simp only [off_screen_pass, htype, hoff, hhit, if_neg h180, if_true, if_false,
                  idsOf, List.map_cons, List.cons_append]
                exact ih.cons n.id
            · simp only [off_screen_pass, htype, hoff, hhit, if_true, if_false, removalIds,
                List.filterMap_cons, EngineAction.removalId, idsOf, List.map_cons]
              exact List.perm_middle.trans (ih.cons n.id)
          · simp only [off_screen_pass, htype, hoff, if_false, idsOf, List.map_cons,
              List.cons_append, Bool.false_eq_true]
            exact ih.cons n.id
      | LONG =>
          by_cases hoff : n.get_tail_y > SCREEN_HEIGHT + 50
          · cases hhit : n.hit
            · by_cases h180 : n.off_screen_time + 1 ≥ 180
              · simp only [off_screen_pass, htype, if_pos hoff, hhit, if_pos h180, if_true,
                  if_false, removalIds, List.filterMap_cons, EngineAction.removalId, idsOf,
                  List.map_cons]
                exact List.perm_middle.trans (ih.cons n.id)
              · simp only [off_screen_pass, htype, if_pos hoff, hhit, if_neg h180, if_true,
                  if_false, idsOf, List.map_cons, List.cons_append]
                exact ih.cons n.id
            · simp only [off_screen_pass, htype, if_pos hoff, hhit, if_true, if_false,
                removalIds, List.filterMap_cons, EngineAction.removalId, idsOf, List.map_cons]
              exact List.perm_middle.trans (ih.cons n.id)
          · simp only [off_screen_pass, htype, if_neg hoff, idsOf, List.map_cons,
              List.cons_append]
            exact ih.cons n.id

lemma on_lane_press_notes (g : RhythmGame) (lane : Nat) :
    (on_lane_press g lane).notes = (check_hit g.judgment_line_y lane g.notes).1 := by
  rw [on_lane_press_eq, apply_actions_notes]

lemma stepA_press_acts (g : RhythmGame) (lane : Nat) :
    (stepA g (Ev.press lane)).2 = (check_hit g.judgment_line_y lane g.notes).2 := rfl

lemma stepA_release_acts (g : RhythmGame) (lane : Nat) :
    (stepA g (Ev.release lane)).2 = (release_pass g.judgment_line_y lane g.notes).2 := rfl

lemma tickA_acts (g : RhythmGame) :
    (tickA g).2 =
      (long_check_pass g.keys_held (g.notes.map (fun n => n.update g.note_speed))).2 ++
      (off_screen_pass
        (long_check_pass g.keys_held (g.notes.map (fun n => n.update g.note_speed))).1).2 := rfl

lemma ids_map_update (ns : List Note) (s : ℚ) :
    idsOf (ns.map (fun n => n.update s)) = idsOf ns := by
  simp [idsOf, Note.update_id]

lemma step_perm (g : RhythmGame) (e : Ev) :
    (idsOf (step g e).notes ++ removalIds (stepA g e).2).Perm (idsOf g.notes) := by
  cases e with
  | press lane =>
      show (idsOf (on_lane_press g lane).notes ++ removalIds (stepA g (Ev.press lane)).2).Perm _
      rw [on_lane_press_notes, stepA_press_acts]
      exact check_hit_perm g.judgment_line_y lane g.notes
  | release lane =>
      show (idsOf (on_lane_release g lane).notes ++ removalIds (stepA g (Ev.release lane)).2).Perm _
      rw [on_lane_release_notes, stepA_release_acts]
      exact release_perm g.judgment_line_y lane g.notes
  | tick =>
      show (idsOf (tick g).notes ++ removalIds (tickA g).2).Perm _
      rw [tick_notes, tickA_acts, removalIds_append]
      have h1 := off_screen_perm
        (long_check_pass g.keys_held (g.notes.map (fun n => n.update g.note_speed))).1
      have h2 := long_check_perm g.keys_held (g.notes.map (fun n => n.update g.note_speed))
      have h3 := perm_juggle h1 h2
      rw [ids_map_update] at h3
      exact h3

lemma run_perm (tr : List Ev) : ∀ g : RhythmGame,
    (idsOf (runGame g tr).notes ++ removalIds (traceActions g tr)).Perm (idsOf g.notes) := by
  induction tr with
  | nil =>
      intro g
      simp [runGame, traceActions, removalIds]
  | cons e tr ih =>
      intro g
      show (idsOf (runGame (step g e) tr).notes ++
        removalIds ((stepA g e).2 ++ traceActions (step g e) tr)).Perm _
      rw [removalIds_append]
      exact perm_juggle (ih (step g e)) (step_perm g e)

lemma step_nodup (g : RhythmGame) (e : Ev) (h : (idsOf g.notes).Nodup) :
    (idsOf (step g e).notes).Nodup := by
  have := (step_perm g e).symm.nodup h
  exact this.of_append_left

lemma run_nodup_removals (g : RhythmGame) (tr : List Ev) (h : (idsOf g.notes).Nodup) :
    (removalIds (traceActions g tr)).Nodup := by
  have := (run_perm tr g).symm.nodup h
  exact this.of_append_right

lemma scoreIds_sublist (acts : List EngineAction) :
    List.Sublist (scoreIds acts) (removalIds acts) := by
  induction acts with
  | nil => simp [scoreIds, removalIds]
  | cons a rest ih =>
      cases a with
      | resolve i j =>
          simpa [scoreIds, removalIds, EngineAction.scoreId, EngineAction.removalId,
            List.filterMap_cons] using ih.cons₂ i
      | holdStart i j =>
          simpa [scoreIds, removalIds, EngineAction.scoreId, EngineAction.removalId,
            List.filterMap_cons] using ih
      | cleanup i =>
          simpa [scoreIds, removalIds, EngineAction.scoreId, EngineAction.removalId,
            List.filterMap_cons] using ih.cons i

/-- Weak simulation relation between an input note and an output note of
one engine step: same identity, and the `holding` / `hit` flags can only
be turned on, never off. -/
def tracks (m n' : Note) : Prop :=
  n'.id = m.id ∧ (m.holding = true → n'.holding = true) ∧ (m.hit = true → n'.hit = true)

lemma tracks_refl (m : Note) : tracks m m := ⟨rfl, fun h => h, fun h => h⟩

lemma check_hit_tracks (line : ℚ) (lane : Nat) (ns : List Note) (n' : Note)
    (h : n' ∈ (check_hit line lane ns).1) : ∃ m ∈ ns, tracks m n' := by
  rcases check_hit_cases line lane ns with ⟨heq, _⟩ | ⟨pre, n, post, hsplit, _, htrig, heq⟩
  · rw [heq] at h
    exact ⟨n', h, tracks_refl n'⟩
  · rw [heq] at h
    simp only at h
    rcases List.mem_append.mp h with h1 | h1
    · rcases List.mem_append.mp h1 with h2 | h2
      · exact ⟨n', by rw [hsplit]; exact List.mem_append_left _ h2, tracks_refl n'⟩
      · by_cases htype : n.type = NoteType.NORMAL
        · rw [hit_transform, if_pos htype] at h2
          simp at h2
        · rw [hit_transform, if_neg htype] at h2
          simp only [List.mem_singleton] at h2
          subst h2
          exact ⟨n, by rw [hsplit]; exact List.mem_append_right _ (List.mem_cons_self n post),
            ⟨rfl, fun _ => rfl, fun _ => rfl⟩⟩
    · exact ⟨n', by rw [hsplit]; exact List.mem_append_right _ (List.mem_cons_of_mem n h1),
        tracks_refl n'⟩

lemma release_keep_mem (line : ℚ) (lane : Nat) (ns : List Note) (n' : Note)
    (h : n' ∈ (release_pass line lane ns).1) : n' ∈ ns := by
  rw [release_pass_eq] at h
  exact (List.mem_filter.mp h).1

lemma long_check_keep_mem (keys_held : Nat → Bool) (ns : List Note) (n' : Note)
    (h : n' ∈ (long_check_pass keys_held ns).1) : n' ∈ ns := by
  rw [long_check_pass_eq] at h
  exact (List.mem_filter.mp h).1

lemma os_keep_fields (n n' : Note) (h : os_keep n = some n') :
    n'.id = n.id ∧ n'.holding = n.holding ∧ n'.hit = n.hit := by
  unfold os_keep at h
  split_ifs at h with h1 h2 h3
  · injection h with h4
    subst h4
    exact ⟨rfl, rfl, rfl⟩
  · injection h with h4
    subst h4
    exact ⟨rfl, rfl, rfl⟩

lemma off_keep_fields (ns : List Note) (n' : Note) (h : n' ∈ (off_screen_pass ns).1) :
    ∃ m ∈ ns, n'.id = m.id ∧ n'.holding = m.holding ∧ n'.hit = m.hit := by
  rw [off_screen_pass_eq] at h
  rcases List.mem_filterMap.mp h with ⟨m, hm, hkeep⟩
  exact ⟨m, hm, os_keep_fields m n' hkeep⟩

lemma tick_fields (g : RhythmGame) (n' : Note) (h : n' ∈ (tick g).notes) :
    ∃ m ∈ g.notes, n'.id = m.id ∧ n'.holding = m.holding ∧ n'.hit = m.hit := by
  rw [tick_notes] at h
  obtain ⟨m1, hm1, f1, f2, f3⟩ := off_keep_fields _ _ h
  have hm1b := long_check_keep_mem _ _ _ hm1
  rcases List.mem_map.mp hm1b with ⟨m, hm, hupd⟩
  refine ⟨m, hm, ?_, ?_, ?_⟩
  · rw [f1, ← hupd, Note.update_id]
  · rw [f2, ← hupd, Note.update_holding]
  · rw [f3, ← hupd, Note.update_hit]

lemma step_tracks (g : RhythmGame) (e : Ev) (n' : Note) (h : n' ∈ (step g e).notes) :
    ∃ m ∈ g.notes, tracks m n' := by
  cases e with
  | press lane =>
      rw [show (step g (Ev.press lane)).notes = (on_lane_press g lane).notes from rfl,
        on_lane_press_notes] at h
      exact check_hit_tracks g.judgment_line_y lane g.notes n' h
  | release lane =>
      rw [show (step g (Ev.release lane)).notes = (on_lane_release g lane).notes from rfl,
        on_lane_release_notes] at h
      exact ⟨n', release_keep_mem g.judgment_line_y lane g.notes n' h, tracks_refl n'⟩
  | tick =>
      obtain ⟨m, hm, f1, f2, f3⟩ := tick_fields g n' h
      exact ⟨m, hm, f1, fun hh => by rw [f2, hh], fun hh => by rw [f3, hh]⟩

lemma run_ids_shrink (tr : List Ev) (g : RhythmGame) (i : Nat)
    (h : i ∈ idsOf (runGame g tr).notes) : i ∈ idsOf g.notes :=
  (run_perm tr g).subset (List.mem_append_left _ h)

lemma run_holding_mono (tr : List Ev) : ∀ g : RhythmGame, (idsOf g.notes).Nodup →
    ∀ n n', n ∈ g.notes → n' ∈ (runGame g tr).notes → n'.id = n.id → n.holding = true →
    n'.holding = true := by
  induction tr with
  | nil =>
      intro g hnd n n' hn hn' hid hh
      have : n' = n := ids_nodup_inj g.notes hnd n' hn' n hn hid
      rw [this]
      exact hh
  | cons e tr ih =>
      intro g hnd n n' hn hn' hid hh
      have hmid : n'.id ∈ idsOf (step g e).notes := by
        have h1 : n'.id ∈ idsOf (runGame (step g e) tr).notes :=
          List.mem_map_of_mem Note.id hn'
        exact run_ids_shrink tr (step g e) n'.id h1
      rcases List.mem_map.mp hmid with ⟨nm, hnm, hnmid⟩
      obtain ⟨m, hm, t1, t2, _⟩ := step_tracks g e nm hnm
      have hmn : m = n := ids_nodup_inj g.notes hnd m hm n hn (by rw [← t1, hnmid, hid])
      have hnmhold : nm.holding = true := t2 (by rw [hmn]; exact hh)
      exact ih (step g e) (step_nodup g e hnd) nm n' hnm hn' (by rw [hnmid, hid]) hnmhold

lemma type_not_normal (n : Note) (h : ¬ n.type = NoteType.NORMAL) : n.type = NoteType.LONG := by
  cases htype : n.type
  · exact absurd htype h
  · rfl

lemma release_acts_resolve (line : ℚ) (lane : Nat) (ns : List Note) (a : EngineAction)
    (h : a ∈ (release_pass line lane ns).2) : ∃ i j, a = EngineAction.resolve i j := by
  rw [release_pass_eq] at h
  rcases List.mem_map.mp h with ⟨n, _, heq⟩
  exact ⟨n.id, release_verdict line n, heq.symm⟩

lemma long_acts_resolve (keys_held : Nat → Bool) (ns : List Note) (a : EngineAction)
    (h : a ∈ (long_check_pass keys_held ns).2) : ∃ i j, a = EngineAction.resolve i j := by
  rw [long_check_pass_eq] at h
  rcases List.mem_map.mp h with ⟨n, _, heq⟩
  exact ⟨n.id, long_verdict keys_held n, heq.symm⟩

lemma os_act_no_holdStart (n : Note) (a : EngineAction) (h : os_act n = some a) :
    EngineAction.holdStartId a = none := by
  unfold os_act at h
  split_ifs at h <;> (injection h with h4; subst h4; rfl)

lemma off_acts_no_holdStart (ns : List Note) (a : EngineAction)
    (h : a ∈ (off_screen_pass ns).2) : EngineAction.holdStartId a = none := by
  rw [off_screen_pass_eq] at h
  rcases List.mem_filterMap.mp h with ⟨m, _, hact⟩
  exact os_act_no_holdStart m a hact

lemma holdStart_step (g : RhythmGame) (e : Ev) (i : Nat) (j : JudgmentType)
    (h : EngineAction.holdStart i j ∈ (stepA g e).2) :
    ∃ lane m, e = Ev.press lane ∧ m ∈ g.notes ∧ m.id = i ∧ m.hit = false ∧
      m.type = NoteType.LONG ∧
      { m with hit := true, holding := true } ∈ (step g e).notes := by
  cases e with
  | press lane =>
      rw [stepA_press_acts] at h
      rcases check_hit_cases g.judgment_line_y lane g.notes with ⟨heq, _⟩ |
        ⟨pre, n, post, hsplit, hpre, htrig, heq⟩
      · rw [heq] at h
        simp at h
      · rw [heq] at h
        simp only [List.mem_singleton] at h
        by_cases htype : n.type = NoteType.NORMAL
        · rw [hit_action, if_pos htype] at h
          exact absurd h (by simp)
        · rw [hit_action, if_neg htype] at h
          injection h with h1 h2
          refine ⟨lane, n, rfl, ?_, h1.symm, htrig.2.1, type_not_normal n htype, ?_⟩
          · rw [hsplit]
            exact List.mem_append_right _ (List.mem_cons_self n post)
          rw [show (step g (Ev.press lane)).notes = (on_lane_press g lane).notes from rfl,
            on_lane_press_notes, heq, hit_transform, if_neg htype]
          exact List.mem_append_left _ (List.mem_append_right _ (List.mem_singleton.mpr rfl))
  | release lane =>
      rw [stepA_release_acts] at h
      obtain ⟨i2, j2, heq⟩ := release_acts_resolve g.judgment_line_y lane g.notes _ h
      exact absurd heq (by simp)
  | tick =>
      rw [show (stepA g Ev.tick).2 = (tickA g).2 from rfl, tickA_acts] at h
      rcases List.mem_append.mp h with h1 | h1
      · obtain ⟨i2, j2, heq⟩ := long_acts_resolve _ _ _ h1
        exact absurd heq (by simp)
      · have := off_acts_no_holdStart _ _ h1
        simp [EngineAction.holdStartId] at this

lemma holdStartId_eq_some (a : EngineAction) (i : Nat) :
    EngineAction.holdStartId a = some i ↔ ∃ j, a = EngineAction.holdStart i j := by
  cases a <;> simp [EngineAction.holdStartId] <;> exact fun h => h.symm

lemma mem_holdStartIds (acts : List EngineAction) (i : Nat) :
    i ∈ holdStartIds acts ↔ ∃ j, EngineAction.holdStart i j ∈ acts := by
  rw [holdStartIds, List.mem_filterMap]
  constructor
  · rintro ⟨a, ha, hsome⟩
    obtain ⟨j, hj⟩ := (holdStartId_eq_some a i).mp hsome
    exact ⟨j, hj ▸ ha⟩
  · rintro ⟨j, hj⟩
    exact ⟨EngineAction.holdStart i j, hj, rfl⟩

lemma no_holdStart_future (i : Nat) (tr : List Ev) : ∀ g : RhythmGame,
    (∀ n ∈ g.notes, n.id = i → n.hit = true) →
    ∀ j, EngineAction.holdStart i j ∉ traceActions g tr := by
  induction tr with
  | nil =>
      intro g _ j h
      simp [traceActions] at h
  | cons e tr ih =>
      intro g hall j h
      rcases List.mem_append.mp h with h1 | h1
      · obtain ⟨lane, m, _, hm, hmi, hmhit, _, _⟩ := holdStart_step g e i j h1
        have hcontra := hall m hm hmi
        rw [hmhit] at hcontra
        exact Bool.noConfusion hcontra
      · refine ih (step g e) ?_ j h1
        intro n2 hn2 hid
        obtain ⟨m, hm, t1, _, t3⟩ := step_tracks g e n2 hn2
        exact t3 (hall m hm (by rw [← t1, hid]))

lemma holdStartIds_append (a b : List EngineAction) :
    holdStartIds (a ++ b) = holdStartIds a ++ holdStartIds b := by
  simp [holdStartIds]

lemma count_holdStart_step (g : RhythmGame) (e : Ev) (i : Nat) :
    ((holdStartIds (stepA g e).2).count i) ≤ 1 := by
  cases e with
  | press lane =>
      rw [stepA_press_acts]
      rcases check_hit_cases g.judgment_line_y lane g.notes with ⟨heq, _⟩ |
        ⟨pre, n, post, _, _, _, heq⟩
      · rw [heq]
        simp [holdStartIds]
      · rw [heq]
        calc (holdStartIds [hit_action g.judgment_line_y n]).count i
            ≤ (holdStartIds [hit_action g.judgment_line_y n]).length := List.count_le_length _ _
          _ ≤ [hit_action g.judgment_line_y n].length := List.length_filterMap_le _ _
          _ = 1 := rfl
  | release lane =>
      rw [stepA_release_acts]
      have hnil : holdStartIds (release_pass g.judgment_line_y lane g.notes).2 = [] := by
        rw [holdStartIds, List.filterMap_eq_nil]
        intro a ha
        obtain ⟨i2, j2, heq⟩ := release_acts_resolve _ _ _ _ ha
        rw [heq]
        rfl
      rw [hnil]
      simp
  | tick =>
      rw [show (stepA g Ev.tick).2 = (tickA g).2 from rfl, tickA_acts]
      have hnil : holdStartIds
          ((long_check_pass g.keys_held (g.notes.map (fun n => n.update g.note_speed))).2 ++
           (off_screen_pass (long_check_pass g.keys_held
             (g.notes.map (fun n => n.update g.note_speed))).1).2) = [] := by
        rw [holdStartIds, List.filterMap_eq_nil]
        intro a ha
        rcases List.mem_append.mp ha with h1 | h1
        · obtain ⟨i2, j2, heq⟩ := long_acts_resolve _ _ _ h1
          rw [heq]
          rfl
        · exact off_acts_no_holdStart _ _ h1
      rw [hnil]
      simp

lemma holdStart_count_le (tr : List Ev) : ∀ g : RhythmGame, (idsOf g.notes).Nodup →
    ∀ i, (holdStartIds (traceActions g tr)).count i ≤ 1 := by
  induction tr with
  | nil =>
      intro g _ i
      simp [traceActions, holdStartIds]
  | cons e tr ih =>
      intro g hnd i
      rw [show traceActions g (e :: tr) = (stepA g e).2 ++ traceActions (step g e) tr from rfl,
        holdStartIds_append, List.count_append]
      by_cases hs : ∃ j, EngineAction.holdStart i j ∈ (stepA g e).2
      · obtain ⟨j, hj⟩ := hs
        obtain ⟨lane, m, _, hm, hmi, _, _, hmark⟩ := holdStart_step g e i j hj
        have hrest : (holdStartIds (traceActions (step g e) tr)).count i = 0 := by
          rw [List.count_eq_zero]
          intro hmem
          obtain ⟨j2, hj2⟩ := (mem_holdStartIds _ i).mp hmem
          refine no_holdStart_future i tr (step g e) ?_ j2 hj2
          intro n2 hn2 hid
          have hnd2 := step_nodup g e hnd
          have heq2 : n2 = { m with hit := true, holding := true } :=
            ids_nodup_inj _ hnd2 n2 hn2 _ hmark (by rw [hid, ← hmi])
          rw [heq2]
        rw [hrest]
        have hstep := count_holdStart_step g e i
        omega
      · have h0 : (holdStartIds (stepA g e).2).count i = 0 := by
          rw [List.count_eq_zero]
          intro hmem
          exact hs ((mem_holdStartIds _ i).mp hmem)
        rw [h0]
        simpa using ih (step g e) (step_nodup g e hnd) i

lemma step_flip (g : RhythmGame) (e : Ev) (n n' : Note) (hnd : (idsOf g.notes).Nodup)
    (hn : n ∈ g.notes) (hn' : n' ∈ (step g e).notes) (hid : n'.id = n.id)
    (hf : n.holding = false) (ht : n'.holding = true) :
    ∃ j, e = Ev.press n.lane ∧ n.hit = false ∧ n'.hit = true ∧
      |n.y - g.judgment_line_y| < 60 ∧ EngineAction.holdStart n.id j ∈ (stepA g e).2 := by
  cases e with
  | tick =>
      obtain ⟨m, hm, f1, f2, _⟩ := tick_fields g n' hn'
      have hmeq : m = n := ids_nodup_inj _ hnd m hm n hn (by rw [← f1, hid])
      rw [hmeq] at f2
      rw [f2, hf] at ht
      exact Bool.noConfusion ht
  | release lane =>
      rw [show (step g (Ev.release lane)).notes = (on_lane_release g lane).notes from rfl,
        on_lane_release_notes] at hn'
      have hmem := release_keep_mem _ _ _ _ hn'
      have heq2 : n' = n := ids_nodup_inj _ hnd n' hmem n hn hid
      rw [heq2, hf] at ht
      exact Bool.noConfusion ht
  | press lane =>
      rw [show (step g (Ev.press lane)).notes = (on_lane_press g lane).notes from rfl,
        on_lane_press_notes] at hn'
      rcases check_hit_cases g.judgment_line_y lane g.notes with ⟨heq, _⟩ |
        ⟨pre, m, post, hsplit, hpre, htrig, heq⟩
      · rw [heq] at hn'
        have heq2 : n' = n := ids_nodup_inj _ hnd n' hn' n hn hid
        rw [heq2, hf] at ht
        exact Bool.noConfusion ht
      · rw [heq] at hn'
        rcases List.mem_append.mp hn' with h1 | h1
        · rcases List.mem_append.mp h1 with h2 | h2
          · have hin : n' ∈ g.notes := by
              rw [hsplit]
              exact List.mem_append_left _ h2
            have heq2 : n' = n := ids_nodup_inj _ hnd n' hin n hn hid
            rw [heq2, hf] at ht
            exact Bool.noConfusion ht
          · by_cases htype : m.type = NoteType.NORMAL
            · rw [hit_transform, if_pos htype] at h2
              simp at h2
            · rw [hit_transform, if_neg htype] at h2
              simp only [List.mem_singleton] at h2
              have hmmem : m ∈ g.notes := by
                rw [hsplit]
                exact List.mem_append_right _ (List.mem_cons_self m post)
              have hmid : m.id = n.id := by
                rw [← hid, h2]
              have hmeq : m = n := ids_nodup_inj _ hnd m hmmem n hn hmid
              subst hmeq
              refine ⟨calculate_judgment |m.y - g.judgment_line_y|, ?_, htrig.2.1, ?_,
                htrig.2.2, ?_⟩
              · rw [htrig.1]
              · rw [h2]
              · rw [stepA_press_acts, heq]
                simp [hit_action, htype]
        · have hin : n' ∈ g.notes := by
            rw [hsplit]
            exact List.mem_append_right _ (List.mem_cons_of_mem m h1)
          have heq2 : n' = n := ids_nodup_inj _ hnd n' hin n hn hid
          rw [heq2, hf] at ht
          exact Bool.noConfusion ht

/-- C4: over any event trace from a state with distinct note identities,
each note is removed at most once and scored at most once (so no hold
note is double-scored or double-removed); every scoring coincides with a
removal (the `scoreIds` of the trace are a sublist of its `removalIds`,
i.e. resolution is scored-and-removed in one action, while a hold note's
head judgment scores nothing); `is_held` is set at most once along the
trace, it is never cleared while the note is active, and the only step
that can turn it on is the press that judges the note's head inside the
hit window. -/
theorem claim_C4_hold_resolution_unique (g : RhythmGame) (tr : List Ev)
    (hnd : (idsOf g.notes).Nodup) :
    (∀ i, (removalIds (traceActions g tr)).count i ≤ 1) ∧
    (∀ i, (scoreIds (traceActions g tr)).count i ≤ 1) ∧
    List.Sublist (scoreIds (traceActions g tr)) (removalIds (traceActions g tr)) ∧
    (∀ i, (holdStartIds (traceActions g tr)).count i ≤ 1) ∧
    (∀ n n', n ∈ g.notes → n' ∈ (runGame g tr).notes → n'.id = n.id → n.holding = true →
      n'.holding = true) ∧
    (∀ e n n', n ∈ g.notes → n' ∈ (step g e).notes → n'.id = n.id → n.holding = false →
      n'.holding = true →
      ∃ j, e = Ev.press n.lane ∧ n.hit = false ∧ n'.hit = true ∧
        |n.y - g.judgment_line_y| < 60 ∧ EngineAction.holdStart n.id j ∈ (stepA g e).2) := by
  refine ⟨?_, ?_, scoreIds_sublist (traceActions g tr), holdStart_count_le tr g hnd,
    run_holding_mono tr g hnd, ?_⟩
  · intro i
    exact List.nodup_iff_count_le_one.mp (run_nodup_removals g tr hnd) i
  · intro i
    have h1 := (scoreIds_sublist (traceActions g tr)).count_le i
    have h2 := List.nodup_iff_count_le_one.mp (run_nodup_removals g tr hnd) i
    omega
  · intro e n n' hn hn' hid hf ht
    exact step_flip g e n n' hnd hn hn' hid hf ht

/-- Witness for C4 on the two-hold game over press, press, release. -/
theorem claim_C4_hold_resolution_unique_witness :
    (idsOf holdPairGame.notes).Nodup ∧
    (∀ i, (removalIds
      (traceActions holdPairGame [Ev.press 0, Ev.press 0, Ev.release 0])).count i ≤ 1) :=
  ⟨by decide,
   (claim_C4_hold_resolution_unique holdPairGame [Ev.press 0, Ev.press 0, Ev.release 0]
     (by decide)).1⟩
